import Mathlib

/-!
Verification of the dual-mode ASCII map parser of the DungeonAdventure
repository (`Maze.parse_map` in `src/Maze.py`), together with the grid/room
data model it populates.

The parser is embedded shallowly: lines are `List Char`, the Python
`ValueError`s become a structured `ParseError` whose constructors carry
exactly the data interpolated into the corresponding Python message, and the
in-place mutation of the grid becomes explicit state passing of a `Grid`
value.  `Room.py`, `Grid.py` and `Compass.py` are not part of the provided
source slice, so the room/grid/style model is reconstructed from the
specification (each such definition is marked `Modelled from the spec:`).
`Maze.parse_map` itself is translated line by line from `src/Maze.py`.
-/

set_option autoImplicit false

namespace DungeonAdventure

/-- Decidable equality for `Except`, so that concrete parser runs can be
checked with `decide`. -/
def exceptDecEq {ε α : Type} [DecidableEq ε] [DecidableEq α] :
    (x y : Except ε α) → Decidable (x = y)
  | .ok a, .ok b =>
    if h : a = b then isTrue (h ▸ rfl)
    else isFalse (fun hc => h (by cases hc; rfl))
  | .error a, .error b =>
    if h : a = b then isTrue (h ▸ rfl)
    else isFalse (fun hc => h (by cases hc; rfl))
  | .ok _, .error _ => isFalse (fun hc => by cases hc)
  | .error _, .ok _ => isFalse (fun hc => by cases hc)

instance {ε α : Type} [DecidableEq ε] [DecidableEq α] :
    DecidableEq (Except ε α) := exceptDecEq

/-! ## Python string primitives -/

/-- Whitespace characters stripped by Python `str.rstrip()` / `str.strip()`
(the ASCII ones; the glyph alphabet of the map format is ASCII). -/
def pyWS (c : Char) : Bool :=
  c = ' ' || c = '\t' || c = '\n' || c = '\x0d' || c = '\x0b' || c = '\x0c'

/-- Python `str.rstrip()` on a list of characters. -/
def rstrip (l : List Char) : List Char :=
  (l.reverse.dropWhile pyWS).reverse

/-- Python `str.strip()` on a list of characters. -/
def pyStrip (l : List Char) : List Char :=
  ((l.dropWhile pyWS).reverse.dropWhile pyWS).reverse

/-- Split a character list at every newline character; helper for
`splitlinesL`.  Always returns one (possibly empty) piece more than the
number of newline characters. -/
def splitOnNl : List Char → List (List Char)
  | [] => [[]]
  | c :: rest =>
    if c = '\n' then [] :: splitOnNl rest
    else
      match splitOnNl rest with
      | l :: ls => (c :: l) :: ls
      | [] => [[c]]

/-- Python `str.splitlines()` for `\n`-separated text: the empty string has
no lines, and a trailing newline does not produce a trailing empty line. -/
def splitlinesL (s : List Char) : List (List Char) :=
  if s.isEmpty then []
  else
    let p := splitOnNl s
    if p.getLast? = some [] then p.dropLast else p

/-! ## Data model (modelled from the spec) -/

/-- Modelled from the spec: the four compass directions of `Compass.py`
(North, South, East, West), which is not part of the source slice. -/
inductive Direction where
  | north
  | south
  | east
  | west
deriving DecidableEq, Repr

/-- Modelled from the spec: a `Room` of `Room.py` (not in the source slice).
Four independent door flags, entrance/exit/pit flags, two potion counters,
an optional pillar tag, and a `coords` back-reference. -/
structure Room where
  coords : Nat × Nat
  door_n : Bool := false
  door_s : Bool := false
  door_e : Bool := false
  door_w : Bool := false
  is_entrance : Bool := false
  is_exit : Bool := false
  has_pit : Bool := false
  healing_potions : Nat := 0
  vision_potions : Nat := 0
  pillar : Option Char := none
deriving DecidableEq, Repr

/-- Modelled from the spec: a freshly constructed room has all flags false,
all counters zero and no pillar. -/
def Room.fresh (coords : Nat × Nat) : Room := { coords := coords }

/-- Modelled from the spec: `Room.add_door(direction)` sets the named door
flag; idempotent. -/
def Room.add_door (r : Room) (d : Direction) : Room :=
  match d with
  | .north => { r with door_n := true }
  | .south => { r with door_s := true }
  | .east => { r with door_e := true }
  | .west => { r with door_w := true }

/-- Modelled from the spec: the style configuration object (`RoomStyle` of
`Room.py`, not in the source slice), mapping the semantic corner/wall/door
roles to concrete glyphs.  Horizontal (north/south) wall segments are
fixed-width strings, vertical glyphs are single characters. -/
structure RoomStyle where
  corner : Char
  wall_n : List Char
  door_n : List Char
  door_s : List Char
  wall_w : Char
  door_w : Char
  door_e : Char
deriving DecidableEq, Repr

/-- Modelled from the spec: the default style, with glyphs read off the
canned maps in `src/Maze.py`'s `__main__` block: corners `+`, plain walls
`-----`/`|`, horizontal doors `--H--`, vertical doors `=`. -/
def defaultStyle : RoomStyle where
  corner := '+'
  wall_n := "-----".toList
  door_n := "--H--".toList
  door_s := "--H--".toList
  wall_w := '|'
  door_w := '='
  door_e := '='

/-- Modelled from the spec: a `Grid` owns `width * height` rooms in
row-major order; immutable dimensions. -/
structure Grid where
  width : Nat
  height : Nat
  rooms : List Room
deriving DecidableEq, Repr

/-- Modelled from the spec: `Grid.room(col, row)` returns the room at a
coordinate, or nothing when either index is out of range (the parser guards
some uses with Python's `if r:`). -/
def Grid.room (g : Grid) (col row : Nat) : Option Room :=
  if col < g.width ∧ row < g.height then g.rooms.get? (row * g.width + col)
  else none

/-- Replace the room at a coordinate by the image of the update function;
no-op when the coordinate is out of range.  This is the state-passing
counterpart of mutating the room object returned by `Grid.room`. -/
def Grid.setRoom (g : Grid) (col row : Nat) (f : Room → Room) : Grid :=
  match g.room col row with
  | some r => { g with rooms := g.rooms.set (row * g.width + col) (f r) }
  | none => g

/-- Modelled from the spec: grid construction creates one fresh room per
coordinate, row-major, with `coords` back-references. -/
def Grid.make (w h : Nat) : Grid where
  width := w
  height := h
  rooms := (List.range (w * h)).map (fun i => Room.fresh (i % w, i / w))

/-- Well-formedness of the room store: exactly `width * height` rooms. -/
def Grid.wf (g : Grid) : Prop := g.rooms.length = g.width * g.height

instance (g : Grid) : Decidable g.wf := by
  unfold Grid.wf
  infer_instance

/-! ## Errors

`Maze.parse_map` signals every failure as a Python `ValueError` carrying a
formatted message.  Each constructor below corresponds to one `raise` site
and carries exactly the data interpolated into its message. -/

/-- The failure cases of `Maze.parse_map`.  Message formats, in source
order:
* `dimLineLen ln m got` — `"L{line_num}: expected line len of form
  {wall_len+1}*N+1, got {len(line)}"` (measure mode, `Maze.py:96`);
* `dimLineCount got` — `"expected line count 2*N+1, got
  {len(lines)-line_num}"` (measure mode, `Maze.py:99`; note that this
  message interpolates no line number);
* `lineLen ln expected` — `"L{line_num}: does not match expected len_len
  {line_len}"` (`Maze.py:115`);
* `badCorner ln col got` — `"L{line_num}C{char_num}: expected corner ...,
  got ..."` (`Maze.py:138`);
* `badVertWall ln col got` — `"L{line_num}C{char_num}: expected wall ... or
  door ..., got ..."` (`Maze.py:142`);
* `badHorizWall ln col got` — `"L{line_num}C{char_num}: expected north wall
  ... or door ..., but got ..."` (`Maze.py:166`);
* `unrecognizedSymbol c coords` — `"{c} in room {r.coords} not recognized"`
  (`Maze.py:192`);
* `missingRoom` — models the Python `AttributeError` that a content cell
  raises when `grid.room` produced no room (unreachable when the grid's
  dimensions match the map);
* `fuelExhausted` — artifact of the fuel-based inner loop, unreachable when
  the fuel is at least the line length. -/
inductive ParseError where
  | dimLineLen (line_num : Nat) (m : Nat) (got : Nat)
  | dimLineCount (got : Nat)
  | lineLen (line_num : Nat) (expected : Nat)
  | badCorner (line_num : Nat) (col : Nat) (got : Char)
  | badVertWall (line_num : Nat) (col : Nat) (got : Char)
  | badHorizWall (line_num : Nat) (col : Nat) (got : List Char)
  | unrecognizedSymbol (c : Char) (coords : Nat × Nat)
  | missingRoom
  | fuelExhausted
deriving DecidableEq, Repr

/-- The 1-indexed line number interpolated into the error's message, when
the message includes one (`L{line_num}` prefix). -/
def ParseError.lineNum : ParseError → Option Nat
  | .dimLineLen ln _ _ => some ln
  | .dimLineCount _ => none
  | .lineLen ln _ => some ln
  | .badCorner ln _ _ => some ln
  | .badVertWall ln _ _ => some ln
  | .badHorizWall ln _ _ => some ln
  | .unrecognizedSymbol _ _ => none
  | .missingRoom => none
  | .fuelExhausted => none

/-- The 0-indexed column interpolated into the error's message, when the
message includes one (`C{char_num}`). -/
def ParseError.colNum : ParseError → Option Nat
  | .badCorner _ c _ => some c
  | .badVertWall _ c _ => some c
  | .badHorizWall _ c _ => some c
  | _ => none

/-- The room coordinate interpolated into the error's message, when the
message includes one (`{r.coords}`). -/
def ParseError.roomCoords : ParseError → Option (Nat × Nat)
  | .unrecognizedSymbol _ p => some p
  | _ => none

/-! ## Measure-only mode (`Maze.py:77-104`, `grid is None` branch) -/

/-- The per-line loop of `parse_map` in measure-only mode: skip blank and
comment lines; on the first other line check `len(line) % (wall_len+1) == 1`
and that the remaining line count is even, and return the derived
dimensions.  Falling off the end of the lines returns Python's implicit
`None`. -/
def measureAux (wall_len total : Nat) : List (List Char) → Nat →
    Except ParseError (Option (Nat × Nat))
  | [], _ => .ok none
  | line :: rest, line_num =>
    let ln := line_num + 1
    let l := rstrip line
    if l.length = 0 ∨ l.head? = some '#' then measureAux wall_len total rest ln
    else if l.length % (wall_len + 1) ≠ 1 then
      .error (.dimLineLen ln (wall_len + 1) l.length)
    else if (total - ln) % 2 ≠ 0 then
      .error (.dimLineCount (total - ln))
    else
      .ok (some ((l.length - 1) / (wall_len + 1), (total - ln) / 2))

/-- `Maze.parse_map(map_str=s, grid=None)`: measure-only mode. -/
def parse_map_measure (style : RoomStyle) (map_str : String) :
    Except ParseError (Option (Nat × Nat)) :=
  let lines := splitlinesL map_str.toList
  measureAux style.wall_n.length lines.length lines 0

/-! ## Full-load mode (`Maze.py:106-219`) -/

/-- The `for c in contents` loop over a trimmed content cell
(`Maze.py:178-192`).  `pos` is the grid coordinate of the current room
(where the Python code mutates the fetched room object in place) and
`rc` is that room's `coords` field (interpolated into the error). -/
def parseContents (pos : Nat × Nat) (rc : Nat × Nat) :
    List Char → Grid → Except ParseError Grid
  | [], g => .ok g
  | c :: cs, g =>
    if c = 'i' then
      parseContents pos rc cs (g.setRoom pos.1 pos.2 (fun r => { r with is_entrance := true }))
    else if c = 'O' then
      parseContents pos rc cs (g.setRoom pos.1 pos.2 (fun r => { r with is_exit := true }))
    else if c = 'X' then
      parseContents pos rc cs (g.setRoom pos.1 pos.2 (fun r => { r with has_pit := true }))
    else if c = 'H' then
      parseContents pos rc cs (g.setRoom pos.1 pos.2 (fun r => { r with healing_potions := r.healing_potions + 1 }))
    else if c = 'V' then
      parseContents pos rc cs (g.setRoom pos.1 pos.2 (fun r => { r with vision_potions := r.vision_potions + 1 }))
    else if c = 'A' ∨ c = 'E' ∨ c = 'I' ∨ c = 'P' then
      parseContents pos rc cs (g.setRoom pos.1 pos.2 (fun r => { r with pillar := some c }))
    else
      .error (.unrecognizedSymbol c rc)

/-- The `if east_edge: ... break` part of the inner loop (`Maze.py:145-150`):
on the last character of a content line, an east-door glyph completes the
room of the previous round (`rPrev`) with an East door. -/
def finishLine (style : RoomStyle) (want_lat : Bool) (c : Char)
    (rPrev : Option (Nat × Nat)) (g : Grid) : Except ParseError Grid :=
  if want_lat = false then
    match rPrev with
    | some p =>
      if c = style.door_e then
        .ok (g.setRoom p.1 p.2 (fun r => r.add_door Direction.east))
      else .ok g
    | none => .ok g
  else .ok g

/-- The value of Python's `r` after `r = grid.room(grid_col, grid_row)`
(`Maze.py:153`), as a coordinate: present exactly when the lookup produced
a room. -/
def rPrevNext (g : Grid) (grid_col grid_row : Nat) : Option (Nat × Nat) :=
  if (g.room grid_col grid_row).isSome then some (grid_col, grid_row)
  else none

/-- The non-final part of one iteration of the inner loop
(`Maze.py:152-193`): room fetch, possible west door, then either the
lateral wall segment (grammar check plus north/south door) or the content
cell. `c` is the already-checked separator character and `rem` the rest of
the line after it. -/
def walkChunkStep (style : RoomStyle) (line_num : Nat)
    (want_lat south_edge : Bool) (grid_row char_num grid_col : Nat)
    (c : Char) (rem : List Char) (g : Grid) : Except ParseError Grid :=
  let wall_len := style.wall_n.length
  let roomOpt := g.room grid_col grid_row
  let g1 :=
    if want_lat = false ∧ roomOpt.isSome ∧ c = style.door_w then
      g.setRoom grid_col grid_row (fun r => r.add_door Direction.west)
    else g
  if want_lat = true then
    let wall := rem.take wall_len
    if wall ≠ style.wall_n ∧ wall ≠ style.door_n then
      .error (.badHorizWall line_num (char_num + 1) wall)
    else
      .ok (if roomOpt.isSome then
        if south_edge = true then
          if wall = style.door_s then
            g1.setRoom grid_col grid_row (fun r => r.add_door Direction.south)
          else g1
        else
          if wall = style.door_n then
            g1.setRoom grid_col grid_row (fun r => r.add_door Direction.north)
          else g1
      else g1)
  else
    match roomOpt with
    | some r =>
      parseContents (grid_col, grid_row) r.coords
        (pyStrip (rem.take wall_len)) g1
    | none =>
      if (pyStrip (rem.take wall_len)).isEmpty then .ok g1
      else .error .missingRoom

/-- The `while char_num < len(line)` loop of `parse_map`
(`Maze.py:119-199`), walking one line character-chunk by character-chunk.
The list argument is the still-unread suffix of the line, `char_num` the
index of its head in the full line, `rPrev` the coordinate of the room
fetched by the previous iteration (Python's `r`, `none` for Python's
`None`), and the fuel argument is initialized to the line length, which
strictly bounds the number of iterations. -/
def walkAux (style : RoomStyle) (line_num : Nat) (want_lat south_edge : Bool)
    (grid_row : Nat) :
    Nat → List Char → Nat → Nat → Option (Nat × Nat) → Grid →
    Except ParseError Grid
  | _, [], _, _, _, g => .ok g
  | 0, _ :: _, _, _, _, _ => .error .fuelExhausted
  | fuel + 1, c :: rem, char_num, grid_col, rPrev, g =>
    if want_lat = true ∧ c ≠ style.corner then
      .error (.badCorner line_num char_num c)
    else if want_lat = false ∧ ¬(c = style.wall_w ∨ c = style.door_w) then
      .error (.badVertWall line_num char_num c)
    else if rem = [] then
      -- east edge: complete the room from the previous round, then break
      finishLine style want_lat c rPrev g
    else
      match walkChunkStep style line_num want_lat south_edge grid_row
          char_num grid_col c rem g with
      | .error e => .error e
      | .ok g2 =>
        walkAux style line_num want_lat south_edge grid_row fuel
          (rem.drop style.wall_n.length) (char_num + 1 + style.wall_n.length)
          (grid_col + 1) (rPrevNext g grid_col grid_row) g2

/-- Walk one (already `rstrip`ped) grid line: the inner loop started at
`char_num = 0`, `grid_col = 0`, `r = None`. -/
def walkLine (style : RoomStyle) (line_num : Nat) (want_lat south_edge : Bool)
    (grid_row : Nat) (line : List Char) (g : Grid) : Except ParseError Grid :=
  walkAux style line_num want_lat south_edge grid_row line.length line 0 0 none g

/-- The per-line loop of `parse_map` once the grid has been entered in
full-load mode: length check, line walk, then the row / south-edge /
alternation bookkeeping of `Maze.py:201-219`. -/
def loadGridLines (style : RoomStyle) (total line_len num_rows : Nat) :
    List (List Char) → Nat → Nat → Bool → Bool → Grid →
    Except ParseError Grid
  | [], _, _, _, _, g => .ok g
  | line :: rest, line_num, grid_row, south_edge, want_lat, g =>
    let ln := line_num + 1
    let l := rstrip line
    if l.length ≠ line_len then .error (.lineLen ln line_len)
    else
      match walkLine style ln want_lat south_edge grid_row l g with
      | .error e => .error e
      | .ok g2 =>
        if ln = total then .ok g2
        else
          if want_lat = false then
            if grid_row + 1 < num_rows then
              loadGridLines style total line_len num_rows rest ln (grid_row + 1)
                south_edge (!want_lat) g2
            else
              loadGridLines style total line_len num_rows rest ln grid_row
                true (!want_lat) g2
          else
            loadGridLines style total line_len num_rows rest ln grid_row
              south_edge (!want_lat) g2

/-- The per-line loop of `parse_map` in full-load mode while still skipping
header comment/whitespace lines; on the first grid line it fixes
`line_len = width*(wall_len+1)+1` and hands over to `loadGridLines`
(re-examining the same line, exactly as the Python falls through). -/
def loadHeader (style : RoomStyle) (total : Nat) (g : Grid) :
    List (List Char) → Nat → Except ParseError Grid
  | [], _ => .ok g
  | line :: rest, line_num =>
    let ln := line_num + 1
    let l := rstrip line
    if l.length = 0 ∨ l.head? = some '#' then loadHeader style total g rest ln
    else
      loadGridLines style total (g.width * (style.wall_n.length + 1) + 1)
        g.height (line :: rest) line_num 0 false true g

/-- `Maze.parse_map(map_str=s, grid=g)`: full-load mode, returning the
populated grid instead of mutating it in place. -/
def parse_map_load (style : RoomStyle) (g : Grid) (map_str : String) :
    Except ParseError Grid :=
  let lines := splitlinesL map_str.toList
  loadHeader style lines.length g lines 0

/-- The room at `(col, row)` of the grid produced by a successful full load;
`none` when the load fails or the coordinate is out of range. -/
def loadedRoom (style : RoomStyle) (g : Grid) (map_str : String)
    (col row : Nat) : Option Room :=
  match parse_map_load style g map_str with
  | .ok g2 => g2.room col row
  | .error _ => none

/-- A header line is skipped by the parser while not yet in the grid:
after `rstrip` it is empty or starts with `#`. -/
def SkipLine (l : List Char) : Prop :=
  (rstrip l).length = 0 ∨ (rstrip l).head? = some '#'

instance (l : List Char) : Decidable (SkipLine l) := by
  unfold SkipLine; infer_instance

/-- The content glyphs recognized by the `for c in contents` loop
(`Maze.py:179-190`): entrance `i`, exit `O`, pit `X`, healing potion `H`,
vision potion `V`, and the four pillar glyphs. -/
def isRecognized (c : Char) : Bool :=
  c = 'i' || c = 'O' || c = 'X' || c = 'H' || c = 'V' ||
  c = 'A' || c = 'E' || c = 'I' || c = 'P'

/-- The four pillar glyphs of `Maze.py:189`. -/
def isPillar (c : Char) : Bool :=
  c = 'A' || c = 'E' || c = 'I' || c = 'P'

/-- The effect of one recognized content glyph on a room — the pure-state
form of one round of the `for c in contents` chain (`Maze.py:179-190`);
unrecognized characters (which the chain turns into an error) are mapped to
the identity. -/
def updGlyph (c : Char) (r : Room) : Room :=
  if c = 'i' then { r with is_entrance := true }
  else if c = 'O' then { r with is_exit := true }
  else if c = 'X' then { r with has_pit := true }
  else if c = 'H' then { r with healing_potions := r.healing_potions + 1 }
  else if c = 'V' then { r with vision_potions := r.vision_potions + 1 }
  else if c = 'A' ∨ c = 'E' ∨ c = 'I' ∨ c = 'P' then { r with pillar := some c }
  else r

/-- The cumulative effect of a whole content cell on its room. -/
def Room.applyCell (cs : List Char) (r : Room) : Room :=
  cs.foldl (fun r c => updGlyph c r) r

/-- Left-biased choice on optional pillar tags, used to state the
last-occurrence-wins law for the pillar field. -/
def orElseO (a b : Option Char) : Option Char :=
  match a with
  | some x => some x
  | none => b

/-! ### Chunked view of grid lines

A grid line is a sequence of separator-plus-segment chunks followed by one
trailing separator.  The definitions below build lines from that chunk
structure and give the per-chunk semantics of the inner `while` loop, to be
proved equal to `walkAux` on such lines. -/

/-- The separator-segment chunks of a line, without the trailing
separator. -/
def chunksPre (sep : Char) (segs : List (List Char)) : List Char :=
  (segs.map (List.cons sep)).join

/-- A full lateral line: `width` repetitions of `{sep}{segment}` and a
final `{sep}`. -/
def withSep (sep : Char) (segs : List (List Char)) : List Char :=
  chunksPre sep segs ++ [sep]

/-- The separator-cell chunks of a content line, without the trailing
separator. -/
def cellsPre (cells : List (Char × List Char)) : List Char :=
  (cells.map (fun p => p.1 :: p.2)).join

/-- A full content line: `width` repetitions of
`{vertical_separator}{content_cell}` and a final separator. -/
def lineOfCells (cells : List (Char × List Char)) (fin : Char) : List Char :=
  cellsPre cells ++ [fin]

/-- Per-chunk semantics of a lateral line: walking the segments in order,
each segment that matches the north-door glyph (or, on the bottom
boundary, the south-door glyph) adds the corresponding door to the room at
the current column of `row`, when that room exists. -/
def latChunks (style : RoomStyle) (south_edge : Bool) (row : Nat) :
    List (List Char) → Nat → Grid → Grid
  | [], _, g => g
  | seg :: rest, col, g =>
    let g2 :=
      if (g.room col row).isSome then
        if south_edge then
          if seg = style.door_s then
            g.setRoom col row (fun r => r.add_door Direction.south)
          else g
        else
          if seg = style.door_n then
            g.setRoom col row (fun r => r.add_door Direction.north)
          else g
      else g
    latChunks style south_edge row rest (col + 1) g2

/-- Per-chunk semantics of one content chunk: a west-door separator adds a
West door to the chunk's room, then the trimmed cell contents are applied
to it; out-of-range rooms are untouched. -/
def contCellApply (style : RoomStyle) (row col : Nat) (sep : Char)
    (cell : List Char) (g : Grid) : Grid :=
  match g.room col row with
  | some _ =>
    let g1 :=
      if sep = style.door_w then
        g.setRoom col row (fun r => r.add_door Direction.west)
      else g
    g1.setRoom col row (Room.applyCell (pyStrip cell))
  | none => g

/-- Per-chunk semantics of a content line (before the trailing
separator). -/
def contChunks (style : RoomStyle) (row : Nat) :
    List (Char × List Char) → Nat → Grid → Grid
  | [], _, g => g
  | (sep, cell) :: rest, col, g =>
    contChunks style row rest (col + 1) (contCellApply style row col sep cell g)

/-- The effect of the trailing separator of a content line: when it is the
east-door glyph, add an East door to the room fetched by the last chunk. -/
def eastDoorAt (style : RoomStyle) (fin : Char) (p : Option (Nat × Nat))
    (g : Grid) : Grid :=
  match p with
  | some q =>
    if fin = style.door_e then
      g.setRoom q.1 q.2 (fun r => r.add_door Direction.east)
    else g
  | none => g

/-- The room at `(col, row)` after a successful walk of one line; `none`
when the walk fails or the coordinate is out of range. -/
def roomAfterWalk (style : RoomStyle) (line_num : Nat)
    (want_lat south_edge : Bool) (grid_row : Nat) (line : List Char)
    (g : Grid) (col row : Nat) : Option Room :=
  match walkLine style line_num want_lat south_edge grid_row line g with
  | .ok g2 => g2.room col row
  | .error _ => none

/-! ## Lemmas: measure-only mode -/

lemma measureAux_append_skip (wl total : Nat) (header rest : List (List Char))
    (n : Nat) (h : ∀ l ∈ header, SkipLine l) :
    measureAux wl total (header ++ rest) n =
      measureAux wl total rest (n + header.length) := by
  induction header generalizing n with
  | nil => simp
  | cons a as ih =>
    have ha : (rstrip a).length = 0 ∨ (rstrip a).head? = some '#' := h a (by simp)
    simp only [List.cons_append, List.append_eq, measureAux]
    rw [if_pos ha, ih (n + 1) (fun l hl => h l (by simp [hl]))]
    congr 1
    simp only [List.length_cons]
    omega

/-- Full case analysis of measure-only mode once the first grid line is
identified: everything is decided by the first grid line's trimmed length
and the number of lines after it. -/
lemma measure_first_line_cases (style : RoomStyle) (s : String)
    (header rest : List (List Char)) (first : List Char)
    (hsplit : splitlinesL s.toList = header ++ first :: rest)
    (hheader : ∀ l ∈ header, SkipLine l)
    (hfirst : ¬ SkipLine first) :
    parse_map_measure style s =
      (if (rstrip first).length % (style.wall_n.length + 1) ≠ 1 then
        .error (.dimLineLen (header.length + 1) (style.wall_n.length + 1)
          (rstrip first).length)
      else if rest.length % 2 ≠ 0 then
        .error (.dimLineCount rest.length)
      else
        .ok (some (((rstrip first).length - 1) / (style.wall_n.length + 1),
          rest.length / 2))) := by
  unfold parse_map_measure
  rw [hsplit, measureAux_append_skip _ _ _ _ _ hheader]
  have htot : (header ++ first :: rest).length - (header.length + 1) =
      rest.length := by
    simp only [List.length_append, List.length_cons]
    omega
  simp only [measureAux, Nat.zero_add, htot]
  rw [if_neg (show ¬((rstrip first).length = 0 ∨
    (rstrip first).head? = some '#') from hfirst)]

/-- C1: In measure-only mode, after skipping leading blank and comment
lines, the parser inspects only the first grid line and the total line
count: if the first grid line's trimmed length `L` satisfies
`L % (wall_segment_length+1) = 1` and the number of remaining lines `R` is
even, it returns `(width, height) = ((L-1)/(wall_segment_length+1), R/2)`.
The lines after the first grid line are universally quantified with no
constraint on their contents, so only the first grid line and the count are
inspected. -/
theorem measure_returns_dims_from_first_line (style : RoomStyle) (s : String)
    (header rest : List (List Char)) (first : List Char)
    (hsplit : splitlinesL s.toList = header ++ first :: rest)
    (hheader : ∀ l ∈ header, SkipLine l)
    (hfirst : ¬ SkipLine first)
    (hmod : (rstrip first).length % (style.wall_n.length + 1) = 1)
    (heven : rest.length % 2 = 0) :
    parse_map_measure style s =
      .ok (some (((rstrip first).length - 1) / (style.wall_n.length + 1),
        rest.length / 2)) := by
  rw [measure_first_line_cases style s header rest first hsplit hheader hfirst]
  rw [if_neg (by omega), if_neg (by omega)]

/-- Witness for C1, instantiating the spec's Example 3: a first grid line
of length 19 with `wall_segment_length = 5` and 4 remaining lines yields
`(width, height) = (3, 2)`. -/
theorem measure_returns_dims_from_first_line_witness :
    parse_map_measure defaultStyle
      "# dungeon\n+-----+-----+-----+\n|     |     |     |\n+--H--+-----+--H--+\n|  H  =     |     |\n+-----+-----+-----+"
      = .ok (some (3, 2)) :=
  measure_returns_dims_from_first_line defaultStyle _
    ["# dungeon".toList]
    ["|     |     |     |".toList, "+--H--+-----+--H--+".toList,
     "|  H  =     |     |".toList, "+-----+-----+-----+".toList]
    "+-----+-----+-----+".toList
    (by decide) (by decide) (by decide) (by decide) (by decide)

/-- C8 counterexample: with a well-formed first grid line but an odd count
of remaining lines, measure-only mode fails with the error raised at
`Maze.py:99`, whose message (`"expected line count 2*N+1, got ..."`)
interpolates no line number — contradicting the claim that both
measure-mode failures carry the 1-indexed line number. -/
theorem measure_odd_count_error_lacks_line_number :
    parse_map_measure defaultStyle "+-----+\n+-----+" =
      .error (.dimLineCount 1) ∧
    (ParseError.dimLineCount 1).lineNum = none := by
  constructor
  · decide
  · rfl

/-- C8 (amended): In measure-only mode, for every input with a first grid
line, (i) if its trimmed length is not congruent to 1 modulo
`wall_segment_length+1` the parser fails with an error carrying that line's
1-indexed line number; (ii) otherwise, if the count of remaining lines is
odd, it fails with an error carrying that count but no line number; and
(iii) in all other cases it succeeds — so it fails in exactly these two
cases. -/
theorem measure_fails_in_exactly_two_cases (style : RoomStyle) (s : String)
    (header rest : List (List Char)) (first : List Char)
    (hsplit : splitlinesL s.toList = header ++ first :: rest)
    (hheader : ∀ l ∈ header, SkipLine l)
    (hfirst : ¬ SkipLine first) :
    ((rstrip first).length % (style.wall_n.length + 1) ≠ 1 →
      parse_map_measure style s =
        .error (.dimLineLen (header.length + 1) (style.wall_n.length + 1)
          (rstrip first).length) ∧
      (ParseError.dimLineLen (header.length + 1) (style.wall_n.length + 1)
        (rstrip first).length).lineNum = some (header.length + 1)) ∧
    ((rstrip first).length % (style.wall_n.length + 1) = 1 →
      rest.length % 2 ≠ 0 →
      parse_map_measure style s = .error (.dimLineCount rest.length) ∧
      (ParseError.dimLineCount rest.length).lineNum = none) ∧
    ((rstrip first).length % (style.wall_n.length + 1) = 1 →
      rest.length % 2 = 0 →
      parse_map_measure style s =
        .ok (some (((rstrip first).length - 1) / (style.wall_n.length + 1),
          rest.length / 2))) := by
  rw [measure_first_line_cases style s header rest first hsplit hheader hfirst]
  refine ⟨fun h1 => ?_, fun h1 h2 => ?_, fun h1 h2 => ?_⟩
  · rw [if_pos h1]; exact ⟨rfl, rfl⟩
  · rw [if_neg (by omega), if_pos h2]; exact ⟨rfl, rfl⟩
  · rw [if_neg (by omega), if_neg (by omega)]

/-- Witness for C8 (amended), instantiating case (i): a first grid line of
length 6 is rejected with an error carrying line number 1. -/
theorem measure_fails_in_exactly_two_cases_witness :
    parse_map_measure defaultStyle "+----+\n" =
      .error (.dimLineLen 1 6 6) ∧
    (ParseError.dimLineLen 1 6 6).lineNum = some 1 :=
  (measure_fails_in_exactly_two_cases defaultStyle _ [] [] "+----+".toList
    (by decide) (by decide) (by decide)).1 (by decide)

/-- C10: In measure-only mode, for every input consisting solely of blank
lines and comment lines (including the empty string, which splits into no
lines at all), `parse_map` returns Python's `None`: neither a dimension
pair nor an error. -/
theorem measure_all_skippable_returns_none (style : RoomStyle) (s : String)
    (hall : ∀ l ∈ splitlinesL s.toList, SkipLine l) :
    parse_map_measure style s = .ok none := by
  unfold parse_map_measure
  have h := measureAux_append_skip style.wall_n.length
    (splitlinesL s.toList).length (splitlinesL s.toList) [] 0 hall
  rw [List.append_nil] at h
  rw [h]
  rfl

/-- Witness for C10: a comment line plus blank lines, and separately the
empty string, both produce `None`. -/
theorem measure_all_skippable_returns_none_witness :
    parse_map_measure defaultStyle "# a comment\n\n   \n" = .ok none ∧
    parse_map_measure defaultStyle "" = .ok none :=
  ⟨measure_all_skippable_returns_none defaultStyle _ (by decide),
   measure_all_skippable_returns_none defaultStyle _ (by decide)⟩

/-! ## Lemmas: the grid store -/

lemma rowMajor_inj {w x col y row : Nat} (hx : x < w) (hcol : col < w)
    (h : y * w + x = row * w + col) : x = col ∧ y = row := by
  have hw : 0 < w := Nat.lt_of_le_of_lt (Nat.zero_le x) hx
  have hx1 : y * w + x = x + y * w := by omega
  have hc1 : row * w + col = col + row * w := by omega
  have hmod : x = col := by
    have := congrArg (fun t => t % w) h
    simpa [hx1, hc1, Nat.add_mul_mod_self_right, Nat.mod_eq_of_lt hx,
      Nat.mod_eq_of_lt hcol] using this
  refine ⟨hmod, ?_⟩
  subst hmod
  have := Nat.eq_of_mul_eq_mul_right hw (by omega : y * w = row * w)
  exact this

lemma Grid.width_setRoom (g : Grid) (col row : Nat) (f : Room → Room) :
    (g.setRoom col row f).width = g.width := by
  unfold Grid.setRoom
  cases g.room col row <;> rfl

lemma Grid.height_setRoom (g : Grid) (col row : Nat) (f : Room → Room) :
    (g.setRoom col row f).height = g.height := by
  unfold Grid.setRoom
  cases g.room col row <;> rfl

lemma Grid.room_elim {g : Grid} {col row : Nat} {r : Room}
    (h : g.room col row = some r) :
    col < g.width ∧ row < g.height ∧
      g.rooms.get? (row * g.width + col) = some r := by
  unfold Grid.room at h
  by_cases hb : col < g.width ∧ row < g.height
  · rw [if_pos hb] at h
    exact ⟨hb.1, hb.2, h⟩
  · rw [if_neg hb] at h
    cases h

lemma listSet_get?_self {α : Type} :
    ∀ (l : List α) (i : Nat) (a : α), l.get? i = some a → l.set i a = l
  | [], _, _, h => by cases h
  | x :: xs, 0, a, h => by
    cases h
    rfl
  | x :: xs, i + 1, a, h => by
    simp only [List.set]
    rw [listSet_get?_self xs i a h]

lemma Grid.eq_of_parts {g1 g2 : Grid} (hw : g1.width = g2.width)
    (hh : g1.height = g2.height) (hr : g1.rooms = g2.rooms) : g1 = g2 := by
  cases g1; cases g2
  cases hw; cases hh; cases hr
  rfl

lemma Grid.setRoom_of_room_eq {g : Grid} {col row : Nat} {r : Room}
    (f : Room → Room) (hr : g.room col row = some r) :
    g.setRoom col row f =
      { g with rooms := g.rooms.set (row * g.width + col) (f r) } := by
  unfold Grid.setRoom
  rw [hr]

lemma Grid.setRoom_of_room_none {g : Grid} {col row : Nat}
    (f : Room → Room) (hr : g.room col row = none) :
    g.setRoom col row f = g := by
  unfold Grid.setRoom
  rw [hr]

lemma Grid.room_setRoom (g : Grid) (col row x y : Nat) (f : Room → Room) :
    (g.setRoom col row f).room x y =
      if x = col ∧ y = row then (g.room x y).map f else g.room x y := by
  cases hr : g.room col row with
  | none =>
    rw [Grid.setRoom_of_room_none f hr]
    split_ifs with hxy
    · obtain ⟨hx, hy⟩ := hxy
      subst hx; subst hy
      rw [hr]
      rfl
    · rfl
  | some r =>
    obtain ⟨hcol, hrow, hget⟩ := Grid.room_elim hr
    have hidx : row * g.width + col < g.rooms.length := by
      rcases List.get?_eq_some.mp hget with ⟨hlt, _⟩
      exact hlt
    rw [Grid.setRoom_of_room_eq f hr]
    show (if x < g.width ∧ y < g.height then
        (g.rooms.set (row * g.width + col) (f r)).get? (y * g.width + x)
      else none) = _
    unfold Grid.room
    split_ifs with hb hxy hxy
    · obtain ⟨hx, hy⟩ := hxy
      subst hx; subst hy
      rw [List.get?_set_eq_of_lt _ hidx, hget]
      rfl
    · rw [List.get?_set_ne]
      intro hij
      exact hxy ⟨(rowMajor_inj hb.1 hcol hij.symm).1,
        (rowMajor_inj hb.1 hcol hij.symm).2⟩
    · obtain ⟨hx, hy⟩ := hxy
      subst hx; subst hy
      exact absurd ⟨hcol, hrow⟩ hb
    · rfl

lemma Grid.room_setRoom_self (g : Grid) (col row : Nat) (f : Room → Room) :
    (g.setRoom col row f).room col row = (g.room col row).map f := by
  rw [Grid.room_setRoom]
  simp

lemma Grid.room_setRoom_other (g : Grid) (col row x y : Nat)
    (f : Room → Room) (h : ¬(x = col ∧ y = row)) :
    (g.setRoom col row f).room x y = g.room x y := by
  rw [Grid.room_setRoom, if_neg h]

lemma Grid.setRoom_setRoom (g : Grid) (col row : Nat) (f h : Room → Room) :
    (g.setRoom col row f).setRoom col row h =
      g.setRoom col row (fun r => h (f r)) := by
  cases hr : g.room col row with
  | none =>
    rw [Grid.setRoom_of_room_none f hr, Grid.setRoom_of_room_none h hr,
      Grid.setRoom_of_room_none _ hr]
  | some r =>
    have h2 : (g.setRoom col row f).room col row = some (f r) := by
      rw [Grid.room_setRoom_self, hr]
      rfl
    refine Grid.eq_of_parts ?_ ?_ ?_
    · rw [Grid.width_setRoom, Grid.width_setRoom, Grid.width_setRoom]
    · rw [Grid.height_setRoom, Grid.height_setRoom, Grid.height_setRoom]
    · rw [Grid.setRoom_of_room_eq h h2, Grid.setRoom_of_room_eq _ hr,
        Grid.setRoom_of_room_eq _ hr]
      show ((g.rooms.set _ (f r)).set
        (row * ({ g with rooms := g.rooms.set (row * g.width + col) (f r) } : Grid).width + col)
        (h (f r))) = _
      show ((g.rooms.set (row * g.width + col) (f r)).set
        (row * g.width + col) (h (f r))) = _
      rw [List.set_set]

lemma Grid.setRoom_id (g : Grid) (col row : Nat) :
    g.setRoom col row (fun r => r) = g := by
  cases hr : g.room col row with
  | none => exact Grid.setRoom_of_room_none _ hr
  | some r =>
    rw [Grid.setRoom_of_room_eq _ hr]
    obtain ⟨_, _, hget⟩ := Grid.room_elim hr
    refine Grid.eq_of_parts rfl rfl ?_
    exact listSet_get?_self _ _ _ hget

lemma Grid.room_isSome_setRoom (g : Grid) (col row x y : Nat)
    (f : Room → Room) :
    ((g.setRoom col row f).room x y).isSome = ((g.room x y)).isSome := by
  rw [Grid.room_setRoom]
  split_ifs with h
  · cases g.room x y <;> rfl
  · rfl

/-- Updating a room with a function that preserves a field projection
preserves that projection at every coordinate. -/
lemma Grid.room_map_setRoom {β : Type} (φ : Room → β) (g : Grid)
    (col row x y : Nat) (f : Room → Room) (hf : ∀ r, φ (f r) = φ r) :
    ((g.setRoom col row f).room x y).map φ = (g.room x y).map φ := by
  rw [Grid.room_setRoom]
  split_ifs with h
  · cases g.room x y <;> simp [hf]
  · rfl

/-! ## Lemmas: content cells -/

lemma parseContents_cons_rec (pos rc : Nat × Nat) (c : Char) (cs : List Char)
    (g : Grid) (hc : isRecognized c = true) :
    parseContents pos rc (c :: cs) g =
      parseContents pos rc cs
        (g.setRoom pos.1 pos.2 (fun r => updGlyph c r)) := by
  have hc9 : c = 'i' ∨ c = 'O' ∨ c = 'X' ∨ c = 'H' ∨ c = 'V' ∨
      c = 'A' ∨ c = 'E' ∨ c = 'I' ∨ c = 'P' := by
    simpa [isRecognized, Bool.or_eq_true, decide_eq_true_eq, or_assoc]
      using hc
  rcases hc9 with h | h | h | h | h | h | h | h | h <;> subst h <;>
    simp [parseContents, updGlyph]

lemma parseContents_unrec (pos rc : Nat × Nat) (pre : List Char) (c : Char)
    (post : List Char) (g : Grid)
    (hpre : ∀ x ∈ pre, isRecognized x = true) (hc : isRecognized c = false) :
    parseContents pos rc (pre ++ c :: post) g =
      .error (.unrecognizedSymbol c rc) := by
  induction pre generalizing g with
  | nil =>
    have hne : ¬(c = 'i' ∨ c = 'O' ∨ c = 'X' ∨ c = 'H' ∨ c = 'V' ∨
        c = 'A' ∨ c = 'E' ∨ c = 'I' ∨ c = 'P') := by
      intro hor
      have : isRecognized c = true := by
        simpa [isRecognized, Bool.or_eq_true, decide_eq_true_eq, or_assoc]
          using hor
      rw [hc] at this
      cases this
    push_neg at hne
    obtain ⟨h1, h2, h3, h4, h5, h6, h7, h8, h9⟩ := hne
    simp only [List.nil_append, parseContents]
    rw [if_neg h1, if_neg h2, if_neg h3, if_neg h4, if_neg h5,
      if_neg (by tauto)]
  | cons a pre ih =>
    rw [List.cons_append,
      parseContents_cons_rec pos rc a _ g (hpre a (by simp))]
    exact ih _ (fun x hx => hpre x (by simp [hx]))

lemma applyCell_nil (r : Room) : Room.applyCell [] r = r := rfl

lemma applyCell_cons (c : Char) (cs : List Char) (r : Room) :
    Room.applyCell (c :: cs) r = Room.applyCell cs (updGlyph c r) := rfl

/-- All-recognized content cells succeed and amount to applying the cell's
cumulative update to the room. -/
lemma parseContents_ok (pos rc : Nat × Nat) (cs : List Char) (g : Grid)
    (h : ∀ c ∈ cs, isRecognized c = true) :
    parseContents pos rc cs g =
      .ok (g.setRoom pos.1 pos.2 (Room.applyCell cs)) := by
  induction cs generalizing g with
  | nil =>
    have he : Room.applyCell ([] : List Char) = fun r => r := rfl
    rw [he, Grid.setRoom_id]
    rfl
  | cons c cs ih =>
    rw [parseContents_cons_rec pos rc c cs g (h c (by simp))]
    rw [ih _ (fun x hx => h x (by simp [hx]))]
    rw [Grid.setRoom_setRoom]
    rfl

lemma updGlyph_entrance (c : Char) (r : Room) :
    (updGlyph c r).is_entrance =
      (if c = 'i' then true else r.is_entrance) := by
  unfold updGlyph
  split_ifs <;> simp_all

lemma updGlyph_exit (c : Char) (r : Room) :
    (updGlyph c r).is_exit = (if c = 'O' then true else r.is_exit) := by
  unfold updGlyph
  split_ifs <;> simp_all

lemma updGlyph_pit (c : Char) (r : Room) :
    (updGlyph c r).has_pit = (if c = 'X' then true else r.has_pit) := by
  unfold updGlyph
  split_ifs <;> simp_all

lemma updGlyph_healing (c : Char) (r : Room) :
    (updGlyph c r).healing_potions =
      (if c = 'H' then r.healing_potions + 1 else r.healing_potions) := by
  unfold updGlyph
  split_ifs <;> simp_all

lemma updGlyph_vision (c : Char) (r : Room) :
    (updGlyph c r).vision_potions =
      (if c = 'V' then r.vision_potions + 1 else r.vision_potions) := by
  unfold updGlyph
  split_ifs <;> simp_all

lemma updGlyph_pillar (c : Char) (r : Room) :
    (updGlyph c r).pillar =
      (if isPillar c = true then some c else r.pillar) := by
  unfold updGlyph isPillar
  split_ifs <;> simp_all

lemma updGlyph_doors (c : Char) (r : Room) :
    (updGlyph c r).door_n = r.door_n ∧ (updGlyph c r).door_s = r.door_s ∧
    (updGlyph c r).door_e = r.door_e ∧ (updGlyph c r).door_w = r.door_w := by
  unfold updGlyph
  split_ifs <;> exact ⟨rfl, rfl, rfl, rfl⟩

lemma updGlyph_coords (c : Char) (r : Room) :
    (updGlyph c r).coords = r.coords := by
  unfold updGlyph
  split_ifs <;> rfl

lemma applyCell_entrance (cs : List Char) (r : Room) :
    (Room.applyCell cs r).is_entrance = (r.is_entrance || cs.contains 'i') := by
  induction cs generalizing r with
  | nil => simp [applyCell_nil]
  | cons c cs ih =>
    rw [applyCell_cons, ih, updGlyph_entrance]
    by_cases hc : c = 'i'
    · simp [hc, List.contains_cons]
    · simp [hc, Ne.symm hc, List.contains_cons]

lemma applyCell_exit (cs : List Char) (r : Room) :
    (Room.applyCell cs r).is_exit = (r.is_exit || cs.contains 'O') := by
  induction cs generalizing r with
  | nil => simp [applyCell_nil]
  | cons c cs ih =>
    rw [applyCell_cons, ih, updGlyph_exit]
    by_cases hc : c = 'O'
    · simp [hc, List.contains_cons]
    · simp [hc, Ne.symm hc, List.contains_cons]

lemma applyCell_pit (cs : List Char) (r : Room) :
    (Room.applyCell cs r).has_pit = (r.has_pit || cs.contains 'X') := by
  induction cs generalizing r with
  | nil => simp [applyCell_nil]
  | cons c cs ih =>
    rw [applyCell_cons, ih, updGlyph_pit]
    by_cases hc : c = 'X'
    · simp [hc, List.contains_cons]
    · simp [hc, Ne.symm hc, List.contains_cons]

lemma applyCell_healing (cs : List Char) (r : Room) :
    (Room.applyCell cs r).healing_potions =
      r.healing_potions + cs.count 'H' := by
  induction cs generalizing r with
  | nil => simp [applyCell_nil]
  | cons c cs ih =>
    rw [applyCell_cons, ih, updGlyph_healing]
    by_cases hc : c = 'H' <;> simp [hc, List.count_cons] <;> omega

lemma applyCell_vision (cs : List Char) (r : Room) :
    (Room.applyCell cs r).vision_potions =
      r.vision_potions + cs.count 'V' := by
  induction cs generalizing r with
  | nil => simp [applyCell_nil]
  | cons c cs ih =>
    rw [applyCell_cons, ih, updGlyph_vision]
    by_cases hc : c = 'V' <;> simp [hc, List.count_cons] <;> omega

lemma getLast?_cons_orElseO (c : Char) (l : List Char) :
    (l.getLast?).elim (some c) some = (c :: l).getLast? := by
  cases l with
  | nil => rfl
  | cons x xs =>
    rw [List.getLast?_cons_cons]
    cases h : (x :: xs).getLast? with
    | none => exact absurd h (by simp)
    | some y => rfl

lemma orElseO_some_right (a : Option Char) (c : Char) (b : Option Char) :
    orElseO (orElseO a (some c)) b = orElseO a (some c) := by
  cases a <;> rfl

lemma applyCell_pillar (cs : List Char) (r : Room) :
    (Room.applyCell cs r).pillar =
      orElseO ((cs.filter isPillar).getLast?) r.pillar := by
  induction cs generalizing r with
  | nil => simp [applyCell_nil, orElseO]
  | cons c cs ih =>
    rw [applyCell_cons, ih, updGlyph_pillar]
    by_cases hc : isPillar c = true
    · rw [if_pos hc]
      show _ = orElseO (((c :: cs).filter isPillar).getLast?) r.pillar
      rw [List.filter_cons_of_pos hc]
      rw [← getLast?_cons_orElseO c (cs.filter isPillar)]
      cases h : (cs.filter isPillar).getLast? with
      | none => rfl
      | some y => rfl
    · rw [if_neg hc]
      show _ = orElseO (((c :: cs).filter isPillar).getLast?) r.pillar
      rw [List.filter_cons_of_neg (by simpa using hc)]

lemma applyCell_doors (cs : List Char) (r : Room) :
    (Room.applyCell cs r).door_n = r.door_n ∧
    (Room.applyCell cs r).door_s = r.door_s ∧
    (Room.applyCell cs r).door_e = r.door_e ∧
    (Room.applyCell cs r).door_w = r.door_w := by
  induction cs generalizing r with
  | nil => exact ⟨rfl, rfl, rfl, rfl⟩
  | cons c cs ih =>
    rw [applyCell_cons]
    obtain ⟨h1, h2, h3, h4⟩ := ih (updGlyph c r)
    obtain ⟨u1, u2, u3, u4⟩ := updGlyph_doors c r
    exact ⟨h1.trans u1, h2.trans u2, h3.trans u3, h4.trans u4⟩

/-- C4: In full-load mode, each content cell is trimmed and its characters
interpreted independently: on the cell's room, the entrance marker sets
`is_entrance`, the exit marker sets `is_exit`, the pit marker sets
`has_pit`, each healing-potion marker increments `healing_potions`, each
vision-potion marker increments `vision_potions`, and each pillar glyph
from the fixed set `{A, E, I, P}` overwrites `pillar` so the last
occurrence wins. -/
theorem content_cell_glyphs (pos rc : Nat × Nat) (cell : List Char)
    (g : Grid) (r : Room)
    (hr : g.room pos.1 pos.2 = some r)
    (hrec : ∀ c ∈ pyStrip cell, isRecognized c = true) :
    parseContents pos rc (pyStrip cell) g =
      .ok (g.setRoom pos.1 pos.2 (Room.applyCell (pyStrip cell))) ∧
    (g.setRoom pos.1 pos.2 (Room.applyCell (pyStrip cell))).room pos.1 pos.2
      = some (Room.applyCell (pyStrip cell) r) ∧
    (Room.applyCell (pyStrip cell) r).is_entrance =
      (r.is_entrance || (pyStrip cell).contains 'i') ∧
    (Room.applyCell (pyStrip cell) r).is_exit =
      (r.is_exit || (pyStrip cell).contains 'O') ∧
    (Room.applyCell (pyStrip cell) r).has_pit =
      (r.has_pit || (pyStrip cell).contains 'X') ∧
    (Room.applyCell (pyStrip cell) r).healing_potions =
      r.healing_potions + (pyStrip cell).count 'H' ∧
    (Room.applyCell (pyStrip cell) r).vision_potions =
      r.vision_potions + (pyStrip cell).count 'V' ∧
    (Room.applyCell (pyStrip cell) r).pillar =
      orElseO (((pyStrip cell).filter isPillar).getLast?) r.pillar := by
  refine ⟨parseContents_ok pos rc _ g hrec, ?_,
    applyCell_entrance _ _, applyCell_exit _ _, applyCell_pit _ _,
    applyCell_healing _ _, applyCell_vision _ _, applyCell_pillar _ _⟩
  rw [Grid.room_setRoom_self, hr]
  rfl

/-- Witness for C4, instantiating the spec's Example 2 on a fresh room:
cell `"HH"` yields `healing_potions = 2`, and cell `"XV"` yields `has_pit`
true and `vision_potions = 1`. -/
theorem content_cell_glyphs_witness :
    (Room.applyCell (pyStrip " HH  ".toList) (Room.fresh (0, 0))).healing_potions = 2 ∧
    (Room.applyCell (pyStrip " XV  ".toList) (Room.fresh (0, 0))).has_pit = true ∧
    (Room.applyCell (pyStrip " XV  ".toList) (Room.fresh (0, 0))).vision_potions = 1 ∧
    parseContents (0, 0) (0, 0) (pyStrip " HH  ".toList) (Grid.make 1 1) =
      .ok ((Grid.make 1 1).setRoom 0 0 (Room.applyCell (pyStrip " HH  ".toList))) :=
  ⟨(content_cell_glyphs (0, 0) (0, 0) " HH  ".toList (Grid.make 1 1)
      (Room.fresh (0, 0)) (by decide) (by decide)).2.2.2.2.2.1,
   (content_cell_glyphs (0, 0) (0, 0) " XV  ".toList (Grid.make 1 1)
      (Room.fresh (0, 0)) (by decide) (by decide)).2.2.2.2.1,
   (content_cell_glyphs (0, 0) (0, 0) " XV  ".toList (Grid.make 1 1)
      (Room.fresh (0, 0)) (by decide) (by decide)).2.2.2.2.2.2.1,
   (content_cell_glyphs (0, 0) (0, 0) " HH  ".toList (Grid.make 1 1)
      (Room.fresh (0, 0)) (by decide) (by decide)).1⟩

/-- C9: In full-load mode, a content-cell character outside the recognized
glyph set makes the content-cell loop fail with an unrecognized-symbol
error naming the enclosing room's coordinate — and, per the message format
of `Maze.py:192`, no line or column.  The final conjunct shows the error
propagating out of a whole `parse_map` full load. -/
theorem unrecognized_symbol_names_room (pos rc : Nat × Nat)
    (pre : List Char) (c : Char) (post : List Char) (g : Grid)
    (hpre : ∀ x ∈ pre, isRecognized x = true)
    (hc : isRecognized c = false) :
    parseContents pos rc (pre ++ c :: post) g =
      .error (.unrecognizedSymbol c rc) ∧
    (ParseError.unrecognizedSymbol c rc).roomCoords = some rc ∧
    (ParseError.unrecognizedSymbol c rc).lineNum = none ∧
    (ParseError.unrecognizedSymbol c rc).colNum = none ∧
    parse_map_load defaultStyle (Grid.make 1 1) "+-----+\n| Z   |\n+-----+"
      = .error (.unrecognizedSymbol 'Z' (0, 0)) :=
  ⟨parseContents_unrec pos rc pre c post g hpre hc, rfl, rfl, rfl, by decide⟩

/-- Witness for C9: the glyph `Z` in the cell of room `(0, 0)`. -/
theorem unrecognized_symbol_names_room_witness :
    parseContents (0, 0) (0, 0) ['H', 'Z'] (Grid.make 1 1) =
      .error (.unrecognizedSymbol 'Z' (0, 0)) :=
  (unrecognized_symbol_names_room (0, 0) (0, 0) ['H'] 'Z' [] (Grid.make 1 1)
    (by decide) (by decide)).1

/-! ## Lemmas: chunked lines -/

lemma chunksPre_cons (sep : Char) (s : List Char) (ss : List (List Char)) :
    chunksPre sep (s :: ss) = sep :: (s ++ chunksPre sep ss) := by
  simp [chunksPre]

lemma withSep_nil (sep : Char) : withSep sep [] = [sep] := by
  simp [withSep, chunksPre]

lemma withSep_cons (sep : Char) (s : List Char) (ss : List (List Char)) :
    withSep sep (s :: ss) = sep :: (s ++ withSep sep ss) := by
  simp [withSep, chunksPre]

lemma withSep_ne_nil (sep : Char) (ss : List (List Char)) :
    withSep sep ss ≠ [] := by
  simp [withSep]

lemma cellsPre_cons (p : Char × List Char) (ps : List (Char × List Char)) :
    cellsPre (p :: ps) = p.1 :: (p.2 ++ cellsPre ps) := by
  simp [cellsPre]

lemma lineOfCells_nil (fin : Char) : lineOfCells [] fin = [fin] := by
  simp [lineOfCells, cellsPre]

lemma lineOfCells_cons (p : Char × List Char) (ps : List (Char × List Char))
    (fin : Char) :
    lineOfCells (p :: ps) fin = p.1 :: (p.2 ++ lineOfCells ps fin) := by
  simp [lineOfCells, cellsPre]

lemma lineOfCells_ne_nil (ps : List (Char × List Char)) (fin : Char) :
    lineOfCells ps fin ≠ [] := by
  simp [lineOfCells]

/-! ## Lemmas: one step of the inner line walk -/

lemma walkChunkStep_lat (style : RoomStyle) (ln : Nat) (sl : Bool)
    (row ch col : Nat) (g : Grid) (seg rest : List Char)
    (hseg : seg.length = style.wall_n.length)
    (hwall : seg = style.wall_n ∨ seg = style.door_n) :
    walkChunkStep style ln true sl row ch col style.corner (seg ++ rest) g =
      .ok (if (g.room col row).isSome then
        (if sl = true then
          (if seg = style.door_s then
            g.setRoom col row (fun r => r.add_door Direction.south)
          else g)
        else
          (if seg = style.door_n then
            g.setRoom col row (fun r => r.add_door Direction.north)
          else g))
      else g) := by
  simp only [walkChunkStep]
  simp only [Bool.true_eq_false, false_and, if_false, eq_self_iff_true,
    if_true]
  rw [List.take_left' hseg]
  rw [if_neg (by rcases hwall with h | h <;> simp [h])]

lemma walkChunkStep_cont (style : RoomStyle) (ln : Nat) (sl : Bool)
    (row ch col : Nat) (g : Grid) (sep : Char) (cell rest : List Char)
    (r : Room)
    (hcell : cell.length = style.wall_n.length)
    (hroom : g.room col row = some r)
    (hrec : ∀ x ∈ pyStrip cell, isRecognized x = true) :
    walkChunkStep style ln false sl row ch col sep (cell ++ rest) g =
      .ok (contCellApply style row col sep cell g) := by
  simp only [walkChunkStep, hroom]
  simp only [Bool.false_eq_true, if_false, eq_self_iff_true, true_and,
    Option.isSome_some, List.take_left' hcell]
  rw [parseContents_ok _ _ _ _ hrec]
  simp only [contCellApply, hroom]

lemma walkAux_step_lat (style : RoomStyle) (ln : Nat) (sl : Bool)
    (row f ch col : Nat) (rPrev : Option (Nat × Nat)) (g : Grid)
    (seg rest : List Char)
    (hseg : seg.length = style.wall_n.length) (hrest : rest ≠ [])
    (hwall : seg = style.wall_n ∨ seg = style.door_n) :
    walkAux style ln true sl row (f + 1) (style.corner :: (seg ++ rest))
        ch col rPrev g =
      walkAux style ln true sl row f rest (ch + 1 + style.wall_n.length)
        (col + 1) (rPrevNext g col row)
        (if (g.room col row).isSome then
          (if sl = true then
            (if seg = style.door_s then
              g.setRoom col row (fun r => r.add_door Direction.south)
            else g)
          else
            (if seg = style.door_n then
              g.setRoom col row (fun r => r.add_door Direction.north)
            else g))
        else g) := by
  simp only [walkAux]
  rw [if_neg (by simp), if_neg (by simp),
    if_neg (by simp [List.append_eq_nil, hrest]),
    walkChunkStep_lat style ln sl row ch col g seg rest hseg hwall,
    List.drop_left' hseg]

lemma walkAux_step_cont (style : RoomStyle) (ln : Nat) (sl : Bool)
    (row f ch col : Nat) (rPrev : Option (Nat × Nat)) (g : Grid)
    (sep : Char) (cell rest : List Char) (r : Room)
    (hcell : cell.length = style.wall_n.length) (hrest : rest ≠ [])
    (hsep : sep = style.wall_w ∨ sep = style.door_w)
    (hroom : g.room col row = some r)
    (hrec : ∀ x ∈ pyStrip cell, isRecognized x = true) :
    walkAux style ln false sl row (f + 1) (sep :: (cell ++ rest))
        ch col rPrev g =
      walkAux style ln false sl row f rest (ch + 1 + style.wall_n.length)
        (col + 1) (rPrevNext g col row)
        (contCellApply style row col sep cell g) := by
  simp only [walkAux]
  rw [if_neg (by simp), if_neg (by rcases hsep with h | h <;> simp [h]),
    if_neg (by simp [List.append_eq_nil, hrest]),
    walkChunkStep_cont style ln sl row ch col g sep cell rest r hcell
      hroom hrec,
    List.drop_left' hcell]

lemma walkAux_final_lat (style : RoomStyle) (ln : Nat) (sl : Bool)
    (row f ch col : Nat) (rPrev : Option (Nat × Nat)) (g : Grid) :
    walkAux style ln true sl row (f + 1) [style.corner] ch col rPrev g =
      .ok g := by
  simp only [walkAux]
  rw [if_neg (by simp), if_neg (by simp), if_pos trivial]
  simp [finishLine]

lemma walkAux_final_cont (style : RoomStyle) (ln : Nat) (sl : Bool)
    (row f ch col : Nat) (rPrev : Option (Nat × Nat)) (g : Grid)
    (fin : Char) (hfin : fin = style.wall_w ∨ fin = style.door_w) :
    walkAux style ln false sl row (f + 1) [fin] ch col rPrev g =
      .ok (eastDoorAt style fin rPrev g) := by
  simp only [walkAux]
  rw [if_neg (by simp), if_neg (by rcases hfin with h | h <;> simp [h]),
    if_pos trivial]
  simp only [finishLine, eq_self_iff_true, if_true]
  cases rPrev with
  | none => rfl
  | some p =>
    by_cases h : fin = style.door_e
    · simp [eastDoorAt, h]
    · simp [eastDoorAt, h]

/-! ## Lemmas: whole-line walks over chunked lines -/

lemma contCellApply_room_isSome (style : RoomStyle) (row col : Nat)
    (sep : Char) (cell : List Char) (g : Grid) (x y : Nat) :
    ((contCellApply style row col sep cell g).room x y).isSome =
      ((g.room x y)).isSome := by
  unfold contCellApply
  cases hr : g.room col row with
  | none => rfl
  | some r =>
    by_cases hd : sep = style.door_w
    · rw [if_pos hd, Grid.room_isSome_setRoom, Grid.room_isSome_setRoom]
    · rw [if_neg hd, Grid.room_isSome_setRoom]

/-- A grammatically valid lateral line walks without error, and its effect
on the grid is the per-chunk semantics `latChunks`. -/
lemma walkAux_lat_ok (style : RoomStyle) (ln : Nat) (sl : Bool) (row : Nat)
    (segs : List (List Char)) :
    ∀ (f col ch : Nat) (rPrev : Option (Nat × Nat)) (g : Grid),
    (withSep style.corner segs).length ≤ f →
    (∀ s ∈ segs, s.length = style.wall_n.length ∧
      (s = style.wall_n ∨ s = style.door_n)) →
    walkAux style ln true sl row f (withSep style.corner segs) ch col rPrev g
      = .ok (latChunks style sl row segs col g) := by
  induction segs with
  | nil =>
    intro f col ch rPrev g hf hsegs
    rw [withSep_nil] at hf ⊢
    obtain ⟨f2, rfl⟩ : ∃ f2, f = f2 + 1 := ⟨f - 1, by simp at hf; omega⟩
    exact walkAux_final_lat style ln sl row f2 ch col rPrev g
  | cons s ss ih =>
    intro f col ch rPrev g hf hsegs
    obtain ⟨hlen, hwall⟩ := hsegs s (by simp)
    rw [withSep_cons] at hf ⊢
    have hlen2 : (withSep style.corner ss).length ≤ f - 1 := by
      simp only [List.length_cons, List.length_append] at hf
      omega
    obtain ⟨f2, rfl⟩ : ∃ f2, f = f2 + 1 :=
      ⟨f - 1, by simp at hf; omega⟩
    rw [walkAux_step_lat style ln sl row f2 ch col rPrev g s
      (withSep style.corner ss) hlen (withSep_ne_nil _ _) hwall]
    rw [ih f2 (col + 1) (ch + 1 + style.wall_n.length) _ _
      (by omega) (fun x hx => hsegs x (by simp [hx]))]
    rfl

/-- A grammatically valid content line over rooms that all exist walks
without error, and its effect on the grid is the per-chunk semantics
`contChunks` followed by the trailing-separator east-door rule. -/
lemma walkAux_cont_ok (style : RoomStyle) (ln : Nat) (sl : Bool) (row : Nat)
    (fin : Char) (hfin : fin = style.wall_w ∨ fin = style.door_w)
    (cells : List (Char × List Char)) :
    ∀ (f col ch : Nat) (rPrev : Option (Nat × Nat)) (g : Grid),
    (lineOfCells cells fin).length ≤ f →
    (∀ p ∈ cells, (p.2 : List Char).length = style.wall_n.length ∧
      (p.1 = style.wall_w ∨ p.1 = style.door_w) ∧
      ∀ x ∈ pyStrip p.2, isRecognized x = true) →
    (∀ j, j < cells.length → ((g.room (col + j) row)).isSome = true) →
    walkAux style ln false sl row f (lineOfCells cells fin) ch col rPrev g
      = .ok (eastDoorAt style fin
          (if cells.isEmpty then rPrev
           else some (col + cells.length - 1, row))
          (contChunks style row cells col g)) := by
  induction cells with
  | nil =>
    intro f col ch rPrev g hf hcells hrooms
    rw [lineOfCells_nil] at hf ⊢
    obtain ⟨f2, rfl⟩ : ∃ f2, f = f2 + 1 := ⟨f - 1, by simp at hf; omega⟩
    rw [walkAux_final_cont style ln sl row f2 ch col rPrev g fin hfin]
    rfl
  | cons p ps ih =>
    intro f col ch rPrev g hf hcells hrooms
    obtain ⟨sep, cell⟩ := p
    obtain ⟨hlen, hsep, hrec⟩ := hcells (sep, cell) (by simp)
    have hroom0 : ((g.room col row)).isSome = true := by
      have := hrooms 0 (by simp)
      rwa [Nat.add_zero] at this
    obtain ⟨r, hr⟩ := Option.isSome_iff_exists.mp hroom0
    rw [lineOfCells_cons] at hf ⊢
    obtain ⟨f2, rfl⟩ : ∃ f2, f = f2 + 1 :=
      ⟨f - 1, by simp at hf; omega⟩
    have hf2 : (lineOfCells ps fin).length ≤ f2 := by
      simp only [List.length_cons, List.length_append] at hf
      omega
    rw [walkAux_step_cont style ln sl row f2 ch col rPrev g sep cell
      (lineOfCells ps fin) r hlen (lineOfCells_ne_nil _ _) hsep hr hrec]
    rw [show rPrevNext g col row = some (col, row) from by
      simp [rPrevNext, hroom0]]
    rw [ih f2 (col + 1) (ch + 1 + style.wall_n.length) (some (col, row)) _
      hf2 (fun x hx => hcells x (by simp [hx]))
      (fun j hj => by
        rw [contCellApply_room_isSome]
        have := hrooms (j + 1) (by simpa using hj)
        rwa [show col + (j + 1) = col + 1 + j by omega] at this)]
    rw [show contChunks style row ((sep, cell) :: ps) col g =
      contChunks style row ps (col + 1) (contCellApply style row col sep cell g)
      from rfl]
    congr 1
    by_cases hps : ps.isEmpty
    · have hn : ps = [] := List.isEmpty_iff.mp hps
      subst hn
      simp
    · rw [if_neg (by simp [hps]), if_neg (by simp)]
      have hl : 1 ≤ ps.length := by
        cases ps with
        | nil => simp at hps
        | cons q qs => simp
      rw [show col + 1 + ps.length - 1 = col + ((sep, cell) :: ps).length - 1
        from by simp only [List.length_cons]; omega]

/-! ## Lemmas: effect of lateral lines on doors -/

lemma door_proj_keeps_add (φ : Room → Bool)
    (hφ : φ = Room.door_n ∨ φ = Room.door_s ∨ φ = Room.door_e ∨
      φ = Room.door_w) :
    ∀ (r : Room) (d : Direction), φ r = true → φ (r.add_door d) = true := by
  rcases hφ with rfl | rfl | rfl | rfl <;> intro r d h <;> cases d <;>
    simpa [Room.add_door] using h

lemma Grid.room_isSome_of_wf {g : Grid} {x y : Nat} (hwf : g.wf)
    (hx : x < g.width) (hy : y < g.height) : ((g.room x y)).isSome = true := by
  have hidx : y * g.width + x < g.rooms.length := by
    rw [hwf]
    calc y * g.width + x < y * g.width + g.width := by omega
    _ = (y + 1) * g.width := by ring
    _ ≤ g.height * g.width := Nat.mul_le_mul_right _ (by omega)
    _ = g.width * g.height := Nat.mul_comm _ _
  unfold Grid.room
  rw [if_pos ⟨hx, hy⟩]
  cases hget : g.rooms.get? (y * g.width + x) with
  | none => exact absurd (List.get?_eq_none.mp hget) (by omega)
  | some r => rfl

lemma Grid.wf_setRoom (g : Grid) (col row : Nat) (f : Room → Room)
    (hwf : g.wf) : (g.setRoom col row f).wf := by
  unfold Grid.wf at hwf ⊢
  rw [Grid.width_setRoom, Grid.height_setRoom]
  cases hr : g.room col row with
  | none => rw [Grid.setRoom_of_room_none f hr]; exact hwf
  | some r =>
    rw [Grid.setRoom_of_room_eq f hr]
    simpa using hwf

lemma latChunks_cons (style : RoomStyle) (sl : Bool) (row : Nat)
    (s : List Char) (ss : List (List Char)) (col : Nat) (g : Grid) :
    latChunks style sl row (s :: ss) col g =
      latChunks style sl row ss (col + 1)
        (if ((g.room col row)).isSome then
          (if sl = true then
            (if s = style.door_s then
              g.setRoom col row (fun r => r.add_door Direction.south)
            else g)
          else
            (if s = style.door_n then
              g.setRoom col row (fun r => r.add_door Direction.north)
            else g))
        else g) := rfl

lemma latChunks_width (style : RoomStyle) (sl : Bool) (row : Nat)
    (segs : List (List Char)) :
    ∀ (col : Nat) (g : Grid),
      (latChunks style sl row segs col g).width = g.width := by
  induction segs with
  | nil => intro col g; rfl
  | cons s ss ih =>
    intro col g
    rw [latChunks_cons, ih]
    split_ifs <;> simp [Grid.width_setRoom]

lemma latChunks_height (style : RoomStyle) (sl : Bool) (row : Nat)
    (segs : List (List Char)) :
    ∀ (col : Nat) (g : Grid),
      (latChunks style sl row segs col g).height = g.height := by
  induction segs with
  | nil => intro col g; rfl
  | cons s ss ih =>
    intro col g
    rw [latChunks_cons, ih]
    split_ifs <;> simp [Grid.height_setRoom]

lemma latChunks_wf (style : RoomStyle) (sl : Bool) (row : Nat)
    (segs : List (List Char)) :
    ∀ (col : Nat) (g : Grid), g.wf → (latChunks style sl row segs col g).wf := by
  induction segs with
  | nil => intro col g hwf; exact hwf
  | cons s ss ih =>
    intro col g hwf
    rw [latChunks_cons]
    apply ih
    split_ifs <;> first
      | exact hwf
      | exact Grid.wf_setRoom _ _ _ _ hwf

lemma latChunks_keeps_door (style : RoomStyle) (sl : Bool) (row : Nat)
    (φ : Room → Bool)
    (hφ : φ = Room.door_n ∨ φ = Room.door_s ∨ φ = Room.door_e ∨
      φ = Room.door_w)
    (segs : List (List Char)) :
    ∀ (col x y : Nat) (g : Grid),
      ((g.room x y)).map φ = some true →
      ((latChunks style sl row segs col g).room x y).map φ = some true := by
  induction segs with
  | nil => intro col x y g h; exact h
  | cons s ss ih =>
    intro col x y g h
    rw [latChunks_cons]
    apply ih
    obtain ⟨r0, hr0, hφr0⟩ : ∃ r0, g.room x y = some r0 ∧ φ r0 = true := by
      cases hr : g.room x y with
      | none => rw [hr] at h; cases h
      | some r0 =>
        rw [hr] at h
        exact ⟨r0, rfl, by simpa using h⟩
    split_ifs <;>
      first
        | (rw [Grid.room_setRoom]
           split_ifs with hxy
           · rw [hr0]
             simpa using door_proj_keeps_add φ hφ r0 _ hφr0
           · rw [hr0]; simpa using hφr0)
        | exact h

/-- A lateral line's chunk semantics sets the expected door on the room at
column `col + k` when segment `k` is the matching door glyph. -/
lemma latChunks_sets (style : RoomStyle) (sl : Bool) (row : Nat)
    (segs : List (List Char)) :
    ∀ (col k : Nat) (g : Grid) (seg : List Char),
      g.wf → col + segs.length ≤ g.width → row < g.height →
      segs[k]? = some seg →
      ((sl = false → seg = style.door_n →
        ((latChunks style sl row segs col g).room (col + k) row).map
          Room.door_n = some true) ∧
       (sl = true → seg = style.door_s →
        ((latChunks style sl row segs col g).room (col + k) row).map
          Room.door_s = some true)) := by
  induction segs with
  | nil =>
    intro col k g seg hwf hfit hrow hk
    simp at hk
  | cons s ss ih =>
    intro col k g seg hwf hfit hrow hk
    have hcol : col < g.width := by
      simp only [List.length_cons] at hfit
      omega
    have hsome : ((g.room col row)).isSome = true :=
      Grid.room_isSome_of_wf hwf hcol hrow
    obtain ⟨r0, hr0⟩ := Option.isSome_iff_exists.mp hsome
    cases k with
    | zero =>
      have hseg : seg = s := by
        have := hk
        simp at this
        exact this.symm
      subst hseg
      rw [Nat.add_zero]
      constructor
      · intro hsl hdoor
        subst hsl
        rw [latChunks_cons]
        apply latChunks_keeps_door style false row Room.door_n (by tauto)
        rw [if_pos hsome]
        simp only [Bool.false_eq_true, if_false]
        rw [if_pos hdoor, Grid.room_setRoom_self, hr0]
        rfl
      · intro hsl hdoor
        subst hsl
        rw [latChunks_cons]
        apply latChunks_keeps_door style true row Room.door_s (by tauto)
        rw [if_pos hsome, if_pos rfl, if_pos hdoor,
          Grid.room_setRoom_self, hr0]
        rfl
    | succ k2 =>
      have hk2 : ss[k2]? = some seg := by simpa using hk
      rw [latChunks_cons]
      have hrw : col + (k2 + 1) = (col + 1) + k2 := by omega
      rw [hrw]
      set g2 := (if ((g.room col row)).isSome = true then
          (if sl = true then
            (if s = style.door_s then
              g.setRoom col row (fun r => r.add_door Direction.south)
            else g)
          else
            (if s = style.door_n then
              g.setRoom col row (fun r => r.add_door Direction.north)
            else g))
        else g) with hg2
      have hwf2 : g2.wf := by
        rw [hg2]
        split_ifs <;> first
          | assumption
          | exact Grid.wf_setRoom _ _ _ _ hwf
      have hw2 : g2.width = g.width := by
        rw [hg2]
        split_ifs <;> simp [Grid.width_setRoom]
      have hh2 : g2.height = g.height := by
        rw [hg2]
        split_ifs <;> simp [Grid.height_setRoom]
      exact ih (col + 1) k2 g2 seg hwf2
        (by rw [hw2]; simp only [List.length_cons] at hfit; omega)
        (by rw [hh2]; exact hrow) hk2

/-! ## Lemmas: effect of content lines on doors -/

lemma map_eq_some_true_elim {o : Option Room} {φ : Room → Bool}
    (h : o.map φ = some true) : ∃ r, o = some r ∧ φ r = true := by
  cases o with
  | none => cases h
  | some r => exact ⟨r, rfl, by simpa using h⟩

lemma Grid.setRoom_keeps_true (g : Grid) (col row : Nat) (f : Room → Room)
    (φ : Room → Bool) (hf : ∀ r, φ r = true → φ (f r) = true) (x y : Nat)
    (h : ((g.room x y)).map φ = some true) :
    ((g.setRoom col row f).room x y).map φ = some true := by
  rw [Grid.room_setRoom]
  split_ifs with hxy
  · obtain ⟨r0, hr0, hp⟩ := map_eq_some_true_elim h
    rw [hr0]
    simpa using hf r0 hp
  · exact h

lemma applyCell_door_proj (φ : Room → Bool)
    (hφ : φ = Room.door_n ∨ φ = Room.door_s ∨ φ = Room.door_e ∨
      φ = Room.door_w) (cs : List Char) (r : Room) :
    φ (Room.applyCell cs r) = φ r := by
  rcases hφ with rfl | rfl | rfl | rfl
  · exact (applyCell_doors cs r).1
  · exact (applyCell_doors cs r).2.1
  · exact (applyCell_doors cs r).2.2.1
  · exact (applyCell_doors cs r).2.2.2

lemma contCellApply_keeps_door (style : RoomStyle) (row col : Nat)
    (sep : Char) (cell : List Char) (g : Grid) (φ : Room → Bool)
    (hφ : φ = Room.door_n ∨ φ = Room.door_s ∨ φ = Room.door_e ∨
      φ = Room.door_w) (x y : Nat)
    (h : ((g.room x y)).map φ = some true) :
    ((contCellApply style row col sep cell g).room x y).map φ = some true := by
  unfold contCellApply
  cases hr : g.room col row with
  | none => exact h
  | some r =>
    by_cases hd : sep = style.door_w
    · rw [if_pos hd]
      apply Grid.setRoom_keeps_true
      · intro r2 h2
        rw [applyCell_door_proj φ hφ]
        exact h2
      · exact Grid.setRoom_keeps_true g col row _ φ
          (fun r2 h2 => door_proj_keeps_add φ hφ r2 Direction.west h2) x y h
    · rw [if_neg hd]
      apply Grid.setRoom_keeps_true
      · intro r2 h2
        rw [applyCell_door_proj φ hφ]
        exact h2
      · exact h

lemma contCellApply_width (style : RoomStyle) (row col : Nat) (sep : Char)
    (cell : List Char) (g : Grid) :
    (contCellApply style row col sep cell g).width = g.width := by
  unfold contCellApply
  cases g.room col row with
  | none => rfl
  | some r =>
    split_ifs <;> simp [Grid.width_setRoom]

lemma contCellApply_height (style : RoomStyle) (row col : Nat) (sep : Char)
    (cell : List Char) (g : Grid) :
    (contCellApply style row col sep cell g).height = g.height := by
  unfold contCellApply
  cases g.room col row with
  | none => rfl
  | some r =>
    split_ifs <;> simp [Grid.height_setRoom]

lemma contCellApply_wf (style : RoomStyle) (row col : Nat) (sep : Char)
    (cell : List Char) (g : Grid) (hwf : g.wf) :
    (contCellApply style row col sep cell g).wf := by
  unfold contCellApply
  cases g.room col row with
  | none => exact hwf
  | some r =>
    split_ifs <;> first
      | exact Grid.wf_setRoom _ _ _ _ (Grid.wf_setRoom _ _ _ _ hwf)
      | exact Grid.wf_setRoom _ _ _ _ hwf

lemma contChunks_cons (style : RoomStyle) (row : Nat) (sep : Char)
    (cell : List Char) (ps : List (Char × List Char)) (col : Nat)
    (g : Grid) :
    contChunks style row ((sep, cell) :: ps) col g =
      contChunks style row ps (col + 1)
        (contCellApply style row col sep cell g) := rfl

lemma contChunks_keeps_door (style : RoomStyle) (row : Nat)
    (φ : Room → Bool)
    (hφ : φ = Room.door_n ∨ φ = Room.door_s ∨ φ = Room.door_e ∨
      φ = Room.door_w) (cells : List (Char × List Char)) :
    ∀ (col x y : Nat) (g : Grid),
      ((g.room x y)).map φ = some true →
      ((contChunks style row cells col g).room x y).map φ = some true := by
  induction cells with
  | nil => intro col x y g h; exact h
  | cons p ps ih =>
    intro col x y g h
    obtain ⟨sep, cell⟩ := p
    rw [contChunks_cons]
    exact ih (col + 1) x y _
      (contCellApply_keeps_door style row col sep cell g φ hφ x y h)

lemma contChunks_room_isSome (style : RoomStyle) (row : Nat)
    (cells : List (Char × List Char)) :
    ∀ (col x y : Nat) (g : Grid),
      ((contChunks style row cells col g).room x y).isSome =
        ((g.room x y)).isSome := by
  induction cells with
  | nil => intro col x y g; rfl
  | cons p ps ih =>
    intro col x y g
    obtain ⟨sep, cell⟩ := p
    rw [contChunks_cons, ih, contCellApply_room_isSome]

lemma contChunks_width (style : RoomStyle) (row : Nat)
    (cells : List (Char × List Char)) :
    ∀ (col : Nat) (g : Grid),
      (contChunks style row cells col g).width = g.width := by
  induction cells with
  | nil => intro col g; rfl
  | cons p ps ih =>
    intro col g
    obtain ⟨sep, cell⟩ := p
    rw [contChunks_cons, ih, contCellApply_width]

lemma contChunks_height (style : RoomStyle) (row : Nat)
    (cells : List (Char × List Char)) :
    ∀ (col : Nat) (g : Grid),
      (contChunks style row cells col g).height = g.height := by
  induction cells with
  | nil => intro col g; rfl
  | cons p ps ih =>
    intro col g
    obtain ⟨sep, cell⟩ := p
    rw [contChunks_cons, ih, contCellApply_height]

lemma contChunks_wf (style : RoomStyle) (row : Nat)
    (cells : List (Char × List Char)) :
    ∀ (col : Nat) (g : Grid), g.wf →
      (contChunks style row cells col g).wf := by
  induction cells with
  | nil => intro col g hwf; exact hwf
  | cons p ps ih =>
    intro col g hwf
    obtain ⟨sep, cell⟩ := p
    rw [contChunks_cons]
    exact ih (col + 1) _ (contCellApply_wf style row col sep cell g hwf)

/-- A content line's chunk semantics sets the West door on the room at
column `col + k` when separator `k` is the west-door glyph. -/
lemma contChunks_sets_west (style : RoomStyle) (row : Nat)
    (cells : List (Char × List Char)) :
    ∀ (col k : Nat) (g : Grid) (sep : Char) (cell : List Char),
      g.wf → col + cells.length ≤ g.width → row < g.height →
      cells[k]? = some (sep, cell) → sep = style.door_w →
      ((contChunks style row cells col g).room (col + k) row).map
        Room.door_w = some true := by
  induction cells with
  | nil =>
    intro col k g sep cell hwf hfit hrow hk hsep
    simp at hk
  | cons p ps ih =>
    intro col k g sep cell hwf hfit hrow hk hsep
    have hcol : col < g.width := by
      simp only [List.length_cons] at hfit
      omega
    have hsome : ((g.room col row)).isSome = true :=
      Grid.room_isSome_of_wf hwf hcol hrow
    obtain ⟨r0, hr0⟩ := Option.isSome_iff_exists.mp hsome
    cases k with
    | zero =>
      have hp : p = (sep, cell) := by simpa using hk
      subst hp
      subst hsep
      rw [Nat.add_zero, contChunks_cons]
      apply contChunks_keeps_door style row Room.door_w (by tauto)
      unfold contCellApply
      rw [hr0, if_pos rfl]
      apply Grid.setRoom_keeps_true
      · intro r2 h2
        rw [applyCell_door_proj Room.door_w (by tauto)]
        exact h2
      · rw [Grid.room_setRoom_self, hr0]
        rfl
    | succ k2 =>
      obtain ⟨sep0, cell0⟩ := p
      have hk2 : ps[k2]? = some (sep, cell) := by simpa using hk
      rw [contChunks_cons]
      rw [show col + (k2 + 1) = (col + 1) + k2 from by omega]
      exact ih (col + 1) k2 _ sep cell
        (contCellApply_wf style row col sep0 cell0 g hwf)
        (by rw [contCellApply_width]
            simp only [List.length_cons] at hfit
            omega)
        (by rw [contCellApply_height]; exact hrow) hk2 hsep

lemma eastDoorAt_keeps_door (style : RoomStyle) (fin : Char)
    (p : Option (Nat × Nat)) (g : Grid) (φ : Room → Bool)
    (hφ : φ = Room.door_n ∨ φ = Room.door_s ∨ φ = Room.door_e ∨
      φ = Room.door_w) (x y : Nat)
    (h : ((g.room x y)).map φ = some true) :
    ((eastDoorAt style fin p g).room x y).map φ = some true := by
  unfold eastDoorAt
  cases p with
  | none => exact h
  | some q =>
    split_ifs with hq
    · exact Grid.setRoom_keeps_true g q.1 q.2 _ φ
        (fun r2 h2 => door_proj_keeps_add φ hφ r2 Direction.east h2) x y h
    · exact h

lemma eastDoorAt_sets (style : RoomStyle) (fin : Char) (q : Nat × Nat)
    (g : Grid) (hfin : fin = style.door_e)
    (hq : ((g.room q.1 q.2)).isSome = true) :
    ((eastDoorAt style fin (some q) g).room q.1 q.2).map Room.door_e =
      some true := by
  obtain ⟨r0, hr0⟩ := Option.isSome_iff_exists.mp hq
  show ((if fin = style.door_e then
    g.setRoom q.1 q.2 (fun r => r.add_door Direction.east)
  else g).room q.1 q.2).map Room.door_e = some true
  rw [if_pos hfin, Grid.room_setRoom_self, hr0]
  rfl

/-- C2: In full-load mode, on every lateral line before the bottom
boundary (`south_edge` false), a segment equal to the north-door glyph sets
the North door on the room at that column of the parser's current row —
the row below the line, since `grid_row` is advanced only after content
lines; on the final, bottom-boundary lateral line (`south_edge` true,
where `grid_row` has stayed on the last row, the row above), a segment
equal to the south-door glyph sets the South door on that room instead. -/
theorem lateral_segment_sets_doors (style : RoomStyle) (ln row : Nat)
    (segs : List (List Char)) (g : Grid) (k : Nat) (seg : List Char)
    (hwf : g.wf) (hfit : segs.length ≤ g.width) (hrow : row < g.height)
    (hsegs : ∀ s ∈ segs, s.length = style.wall_n.length ∧
      (s = style.wall_n ∨ s = style.door_n))
    (hk : segs[k]? = some seg) :
    walkLine style ln true false row (withSep style.corner segs) g =
      .ok (latChunks style false row segs 0 g) ∧
    (seg = style.door_n →
      (roomAfterWalk style ln true false row (withSep style.corner segs) g
        k row).map Room.door_n = some true) ∧
    walkLine style ln true true row (withSep style.corner segs) g =
      .ok (latChunks style true row segs 0 g) ∧
    (seg = style.door_s →
      (roomAfterWalk style ln true true row (withSep style.corner segs) g
        k row).map Room.door_s = some true) := by
  have hok : ∀ sl, walkLine style ln true sl row (withSep style.corner segs) g
      = .ok (latChunks style sl row segs 0 g) := fun sl =>
    walkAux_lat_ok style ln sl row segs (withSep style.corner segs).length
      0 0 none g le_rfl hsegs
  have hsets := latChunks_sets style false row segs 0 k g seg hwf
    (by simpa using hfit) hrow hk
  have hsets2 := latChunks_sets style true row segs 0 k g seg hwf
    (by simpa using hfit) hrow hk
  refine ⟨hok false, fun hd => ?_, hok true, fun hd => ?_⟩
  · unfold roomAfterWalk walkLine
    unfold walkLine at hok
    rw [hok false]
    have := hsets.1 rfl hd
    simpa using this
  · unfold roomAfterWalk walkLine
    unfold walkLine at hok
    rw [hok true]
    have := hsets2.2 rfl hd
    simpa using this

/-- Witness for C2: a one-segment lateral line `+--H--+` over a 1x1 grid
sets North on room `(0, 0)` when below the line, and South when it is the
bottom boundary. -/
theorem lateral_segment_sets_doors_witness :
    (roomAfterWalk defaultStyle 1 true false 0
      (withSep '+' ["--H--".toList]) (Grid.make 1 1) 0 0).map Room.door_n =
      some true ∧
    (roomAfterWalk defaultStyle 1 true true 0
      (withSep '+' ["--H--".toList]) (Grid.make 1 1) 0 0).map Room.door_s =
      some true :=
  ⟨(lateral_segment_sets_doors defaultStyle 1 0 ["--H--".toList]
      (Grid.make 1 1) 0 "--H--".toList (by decide) (by decide) (by decide)
      (by decide) (by decide)).2.1 rfl,
   (lateral_segment_sets_doors defaultStyle 1 0 ["--H--".toList]
      (Grid.make 1 1) 0 "--H--".toList (by decide) (by decide) (by decide)
      (by decide) (by decide)).2.2.2 rfl⟩

/-- C5: In full-load mode, on every content line, a separator equal to the
west-door glyph immediately before a room's content cell sets that room's
West door, and the final separator of the line, when equal to the
east-door glyph, sets the East door on the last room of the row. -/
theorem content_separator_sets_doors (style : RoomStyle) (ln : Nat)
    (sl : Bool) (row : Nat) (cells : List (Char × List Char)) (fin : Char)
    (g : Grid) (k : Nat) (sep : Char) (cell : List Char)
    (hwf : g.wf) (hfit : cells.length ≤ g.width) (hrow : row < g.height)
    (hcells : ∀ p ∈ cells, (p.2 : List Char).length = style.wall_n.length ∧
      (p.1 = style.wall_w ∨ p.1 = style.door_w) ∧
      ∀ x ∈ pyStrip p.2, isRecognized x = true)
    (hfin : fin = style.wall_w ∨ fin = style.door_w)
    (hk : cells[k]? = some (sep, cell)) :
    walkLine style ln false sl row (lineOfCells cells fin) g =
      .ok (eastDoorAt style fin (some (cells.length - 1, row))
        (contChunks style row cells 0 g)) ∧
    (sep = style.door_w →
      (roomAfterWalk style ln false sl row (lineOfCells cells fin) g k row).map
        Room.door_w = some true) ∧
    (fin = style.door_e →
      (roomAfterWalk style ln false sl row (lineOfCells cells fin) g
        (cells.length - 1) row).map Room.door_e = some true) := by
  have hne : cells ≠ [] := by
    intro h
    subst h
    simp at hk
  have hklt : k < cells.length := by
    by_contra hlt
    rw [List.getElem?_eq_none (by omega)] at hk
    cases hk
  have hrooms : ∀ j, j < cells.length →
      ((g.room (0 + j) row)).isSome = true := fun j hj => by
    rw [Nat.zero_add]
    exact Grid.room_isSome_of_wf hwf (lt_of_lt_of_le hj hfit) hrow
  have hok : walkLine style ln false sl row (lineOfCells cells fin) g =
      .ok (eastDoorAt style fin (some (cells.length - 1, row))
        (contChunks style row cells 0 g)) := by
    unfold walkLine
    rw [walkAux_cont_ok style ln sl row fin hfin cells
      (lineOfCells cells fin).length 0 0 none g le_rfl hcells hrooms]
    rw [if_neg (by simp [hne]), Nat.zero_add]
  refine ⟨hok, fun hd => ?_, fun hd => ?_⟩
  · unfold roomAfterWalk
    rw [hok]
    show ((eastDoorAt style fin (some (cells.length - 1, row))
      (contChunks style row cells 0 g)).room k row).map Room.door_w = some true
    apply eastDoorAt_keeps_door style fin _ _ Room.door_w (by tauto)
    have := contChunks_sets_west style row cells 0 k g sep cell hwf
      (by simpa using hfit) hrow hk hd
    simpa using this
  · unfold roomAfterWalk
    rw [hok]
    show ((eastDoorAt style fin (some (cells.length - 1, row))
      (contChunks style row cells 0 g)).room (cells.length - 1) row).map
        Room.door_e = some true
    have hpres : (((contChunks style row cells 0 g).room (cells.length - 1)
        row)).isSome = true := by
      rw [contChunks_room_isSome]
      have := hrooms (cells.length - 1) (by omega)
      simpa using this
    exact eastDoorAt_sets style fin (cells.length - 1, row) _ hd hpres

/-- Witness for C5: the content line `=  H  =` over a 1x1 grid sets both
the West door (leading separator) and the East door (final separator) on
room `(0, 0)`. -/
theorem content_separator_sets_doors_witness :
    (roomAfterWalk defaultStyle 2 false false 0
      (lineOfCells [('=', "  H  ".toList)] '=') (Grid.make 1 1) 0 0).map
      Room.door_w = some true ∧
    (roomAfterWalk defaultStyle 2 false false 0
      (lineOfCells [('=', "  H  ".toList)] '=') (Grid.make 1 1) 0 0).map
      Room.door_e = some true :=
  ⟨(content_separator_sets_doors defaultStyle 2 false 0
      [('=', "  H  ".toList)] '=' (Grid.make 1 1) 0 '=' "  H  ".toList
      (by decide) (by decide) (by decide) (by decide) (by decide)
      (by decide)).2.1 rfl,
   (content_separator_sets_doors defaultStyle 2 false 0
      [('=', "  H  ".toList)] '=' (Grid.make 1 1) 0 '=' "  H  ".toList
      (by decide) (by decide) (by decide) (by decide) (by decide)
      (by decide)).2.2 rfl⟩

/-! ## Lemmas: what a line walk does NOT touch -/

lemma walkChunkStep_lat_shape (style : RoomStyle) (ln : Nat) (sl : Bool)
    (row ch col : Nat) (c : Char) (rem : List Char) (g : Grid) :
    walkChunkStep style ln true sl row ch col c rem g =
      (if (rem.take style.wall_n.length ≠ style.wall_n ∧
          rem.take style.wall_n.length ≠ style.door_n) then
        .error (.badHorizWall ln (ch + 1) (rem.take style.wall_n.length))
      else
        .ok (if ((g.room col row)).isSome = true then
          (if sl = true then
            (if rem.take style.wall_n.length = style.door_s then
              g.setRoom col row (fun r => r.add_door Direction.south)
            else g)
          else
            (if rem.take style.wall_n.length = style.door_n then
              g.setRoom col row (fun r => r.add_door Direction.north)
            else g))
        else g)) := by
  simp only [walkChunkStep]
  simp only [Bool.true_eq_false, false_and, if_false, eq_self_iff_true,
    if_true]

lemma walkChunkStep_lat_preserves (style : RoomStyle) (ln : Nat) (sl : Bool)
    (row ch col : Nat) (c : Char) (rem : List Char) (g g2 : Grid)
    (φ : Room → Bool)
    (hφd : ∀ r, φ (r.add_door
      (if sl = true then Direction.south else Direction.north)) = φ r)
    (h : walkChunkStep style ln true sl row ch col c rem g = .ok g2)
    (x y : Nat) :
    (g2.room x y).map φ = (g.room x y).map φ := by
  rw [walkChunkStep_lat_shape] at h
  by_cases hg : (rem.take style.wall_n.length ≠ style.wall_n ∧
      rem.take style.wall_n.length ≠ style.door_n)
  · rw [if_pos hg] at h
    cases h
  · rw [if_neg hg] at h
    injection h with h
    subst h
    cases sl with
    | false =>
      simp only [Bool.false_eq_true, if_false] at hφd ⊢
      split_ifs
      · exact Grid.room_map_setRoom φ g col row x y _ hφd
      · rfl
      · rfl
    | true =>
      simp only [if_true, eq_self_iff_true] at hφd ⊢
      split_ifs
      · exact Grid.room_map_setRoom φ g col row x y _ hφd
      · rfl
      · rfl

lemma parseContents_preserves_ns (pos rc : Nat × Nat) (cs : List Char) :
    ∀ (g g2 : Grid), parseContents pos rc cs g = .ok g2 →
    ∀ (φ : Room → Bool), (φ = Room.door_n ∨ φ = Room.door_s) →
    ∀ x y, (g2.room x y).map φ = (g.room x y).map φ := by
  induction cs with
  | nil =>
    intro g g2 h φ hφ x y
    injection h with h
    subst h
    rfl
  | cons c cs ih =>
    intro g g2 h φ hφ x y
    simp only [parseContents] at h
    split_ifs at h with h1 h2 h3 h4 h5 h6
    · rw [ih _ _ h φ hφ x y]
      exact Grid.room_map_setRoom φ g pos.1 pos.2 x y _
        (by rcases hφ with rfl | rfl <;> intro r <;> rfl)
    · rw [ih _ _ h φ hφ x y]
      exact Grid.room_map_setRoom φ g pos.1 pos.2 x y _
        (by rcases hφ with rfl | rfl <;> intro r <;> rfl)
    · rw [ih _ _ h φ hφ x y]
      exact Grid.room_map_setRoom φ g pos.1 pos.2 x y _
        (by rcases hφ with rfl | rfl <;> intro r <;> rfl)
    · rw [ih _ _ h φ hφ x y]
      exact Grid.room_map_setRoom φ g pos.1 pos.2 x y _
        (by rcases hφ with rfl | rfl <;> intro r <;> rfl)
    · rw [ih _ _ h φ hφ x y]
      exact Grid.room_map_setRoom φ g pos.1 pos.2 x y _
        (by rcases hφ with rfl | rfl <;> intro r <;> rfl)
    · rw [ih _ _ h φ hφ x y]
      exact Grid.room_map_setRoom φ g pos.1 pos.2 x y _
        (by rcases hφ with rfl | rfl <;> intro r <;> rfl)

lemma walkChunkStep_cont_preserves_ns (style : RoomStyle) (ln : Nat)
    (sl : Bool) (row ch col : Nat) (c : Char) (rem : List Char)
    (g g2 : Grid) (φ : Room → Bool)
    (hφ : φ = Room.door_n ∨ φ = Room.door_s)
    (h : walkChunkStep style ln false sl row ch col c rem g = .ok g2)
    (x y : Nat) :
    (g2.room x y).map φ = (g.room x y).map φ := by
  cases hr : g.room col row with
  | none =>
    simp only [walkChunkStep, hr, Option.isSome_none, Bool.false_eq_true,
      false_and, and_false, if_false] at h
    by_cases he : (pyStrip (rem.take style.wall_n.length)).isEmpty = true
    · rw [if_pos he] at h
      injection h with h
      subst h
      rfl
    · rw [if_neg he] at h
      cases h
  | some r =>
    simp only [walkChunkStep, hr, Option.isSome_some, Bool.false_eq_true,
      if_false, eq_self_iff_true, true_and] at h
    have hpres := parseContents_preserves_ns (col, row) r.coords _ _ _ h φ hφ x y
    rw [hpres]
    by_cases hd : c = style.door_w
    · rw [if_pos hd]
      exact Grid.room_map_setRoom φ g col row x y _
        (by rcases hφ with rfl | rfl <;> intro r2 <;> rfl)
    · rw [if_neg hd]

lemma finishLine_preserves_ns (style : RoomStyle) (wl : Bool) (c : Char)
    (rPrev : Option (Nat × Nat)) (g g2 : Grid) (φ : Room → Bool)
    (hφ : φ = Room.door_n ∨ φ = Room.door_s)
    (h : finishLine style wl c rPrev g = .ok g2) (x y : Nat) :
    (g2.room x y).map φ = (g.room x y).map φ := by
  unfold finishLine at h
  cases rPrev with
  | none =>
    split_ifs at h <;> (injection h with h; subst h; rfl)
  | some p =>
    split_ifs at h with h1 h2
    · injection h with h
      subst h
      exact Grid.room_map_setRoom φ g p.1 p.2 x y _
        (by rcases hφ with rfl | rfl <;> intro r2 <;> rfl)
    · injection h with h
      subst h
      rfl
    · injection h with h
      subst h
      rfl

lemma walkAux_lat_ok_preserves (style : RoomStyle) (ln : Nat) (sl : Bool)
    (row : Nat) (φ : Room → Bool)
    (hφd : ∀ r, φ (r.add_door
      (if sl = true then Direction.south else Direction.north)) = φ r) :
    ∀ (f : Nat) (rem : List Char) (ch col : Nat)
      (rPrev : Option (Nat × Nat)) (g g' : Grid),
      walkAux style ln true sl row f rem ch col rPrev g = .ok g' →
      ∀ x y, (g'.room x y).map φ = (g.room x y).map φ := by
  intro f
  induction f with
  | zero =>
    intro rem ch col rPrev g g' h x y
    cases rem with
    | nil =>
      simp only [walkAux] at h
      injection h with h
      subst h
      rfl
    | cons c rem2 =>
      simp only [walkAux] at h
      cases h
  | succ f2 ih =>
    intro rem ch col rPrev g g' h x y
    cases rem with
    | nil =>
      simp only [walkAux] at h
      injection h with h
      subst h
      rfl
    | cons c rem2 =>
      simp only [walkAux] at h
      by_cases h1 : c = style.corner
      swap
      · rw [if_pos (show True ∧ c ≠ style.corner from ⟨trivial, h1⟩)] at h
        cases h
      · rw [if_neg (show ¬(True ∧ c ≠ style.corner) from by simp [h1]),
          if_neg (by simp)] at h
        by_cases h3 : rem2 = []
        · rw [if_pos h3] at h
          simp only [finishLine, Bool.true_eq_false, if_false] at h
          injection h with h
          subst h
          rfl
        · rw [if_neg h3] at h
          cases hstep : walkChunkStep style ln true sl row ch col c rem2 g with
          | error e =>
            rw [hstep] at h
            cases h
          | ok g2 =>
            rw [hstep] at h
            rw [ih _ _ _ _ _ _ h x y]
            exact walkChunkStep_lat_preserves style ln sl row ch col c rem2
              g g2 φ hφd hstep x y

lemma walkAux_cont_ok_preserves_ns (style : RoomStyle) (ln : Nat)
    (sl : Bool) (row : Nat) (φ : Room → Bool)
    (hφ : φ = Room.door_n ∨ φ = Room.door_s) :
    ∀ (f : Nat) (rem : List Char) (ch col : Nat)
      (rPrev : Option (Nat × Nat)) (g g' : Grid),
      walkAux style ln false sl row f rem ch col rPrev g = .ok g' →
      ∀ x y, (g'.room x y).map φ = (g.room x y).map φ := by
  intro f
  induction f with
  | zero =>
    intro rem ch col rPrev g g' h x y
    cases rem with
    | nil =>
      simp only [walkAux] at h
      injection h with h
      subst h
      rfl
    | cons c rem2 =>
      simp only [walkAux] at h
      cases h
  | succ f2 ih =>
    intro rem ch col rPrev g g' h x y
    cases rem with
    | nil =>
      simp only [walkAux] at h
      injection h with h
      subst h
      rfl
    | cons c rem2 =>
      simp only [walkAux] at h
      rw [if_neg (by simp)] at h
      by_cases h2 : (c = style.wall_w ∨ c = style.door_w)
      swap
      · rw [if_pos (show True ∧ ¬(c = style.wall_w ∨ c = style.door_w)
          from ⟨trivial, h2⟩)] at h
        cases h
      · rw [if_neg (show ¬(True ∧ ¬(c = style.wall_w ∨ c = style.door_w))
          from by simp [h2])] at h
        by_cases h3 : rem2 = []
        · rw [if_pos h3] at h
          exact finishLine_preserves_ns style false c rPrev g g' φ hφ h x y
        · rw [if_neg h3] at h
          cases hstep : walkChunkStep style ln false sl row ch col c rem2 g with
          | error e =>
            rw [hstep] at h
            cases h
          | ok g2 =>
            rw [hstep] at h
            rw [ih _ _ _ _ _ _ h x y]
            exact walkChunkStep_cont_preserves_ns style ln sl row ch col c
              rem2 g g2 φ hφ hstep x y

/-- C3 counterexample: interior door glyphs set a door flag on only one of
the two adjoining rooms.  In a 1x2 map whose interior lateral line is the
north-door segment `--H--`, the lower room `(0, 1)` gets North but the
upper room `(0, 0)` does not get South; in a 2x1 map whose interior
vertical separator is `=`, the eastern room `(1, 0)` gets West but the
western room `(0, 0)` does not get East. -/
theorem interior_door_counterexample :
    (loadedRoom defaultStyle (Grid.make 1 2)
      "+-----+\n|     |\n+--H--+\n|     |\n+-----+" 0 1).map Room.door_n =
      some true ∧
    (loadedRoom defaultStyle (Grid.make 1 2)
      "+-----+\n|     |\n+--H--+\n|     |\n+-----+" 0 0).map Room.door_s =
      some false ∧
    (loadedRoom defaultStyle (Grid.make 2 1)
      "+-----+-----+\n|     =     |\n+-----+-----+" 1 0).map Room.door_w =
      some true ∧
    (loadedRoom defaultStyle (Grid.make 2 1)
      "+-----+-----+\n|     =     |\n+-----+-----+" 0 0).map Room.door_e =
      some false := by
  refine ⟨?_, ?_, ?_, ?_⟩ <;> decide

/-- C3 (amended): a door glyph on a shared wall segment sets the
corresponding flag on exactly one adjoining room. Walking a lateral line
that is not the bottom boundary never changes any room's South, East or
West flag (so an interior north-door segment sets North on the room below
only); walking the bottom-boundary lateral line never changes any room's
North, East or West flag; walking a content line never changes any room's
North or South flag (so an interior vertical door glyph sets West on the
room to its east only, and East is set only through the final separator).
The last conjunct exhibits the one-sided effect on full map loads. -/
theorem interior_door_one_sided (style : RoomStyle) (ln row : Nat) :
    (∀ (line : List Char) (g g' : Grid),
      walkLine style ln true false row line g = .ok g' →
      ∀ x y, (g'.room x y).map Room.door_s = (g.room x y).map Room.door_s ∧
        (g'.room x y).map Room.door_e = (g.room x y).map Room.door_e ∧
        (g'.room x y).map Room.door_w = (g.room x y).map Room.door_w) ∧
    (∀ (line : List Char) (g g' : Grid),
      walkLine style ln true true row line g = .ok g' →
      ∀ x y, (g'.room x y).map Room.door_n = (g.room x y).map Room.door_n ∧
        (g'.room x y).map Room.door_e = (g.room x y).map Room.door_e ∧
        (g'.room x y).map Room.door_w = (g.room x y).map Room.door_w) ∧
    (∀ (sl : Bool) (line : List Char) (g g' : Grid),
      walkLine style ln false sl row line g = .ok g' →
      ∀ x y, (g'.room x y).map Room.door_n = (g.room x y).map Room.door_n ∧
        (g'.room x y).map Room.door_s = (g.room x y).map Room.door_s) ∧
    ((loadedRoom defaultStyle (Grid.make 1 2)
        "+-----+\n|     |\n+--H--+\n|     |\n+-----+" 0 1).map Room.door_n =
        some true ∧
      (loadedRoom defaultStyle (Grid.make 1 2)
        "+-----+\n|     |\n+--H--+\n|     |\n+-----+" 0 0).map Room.door_s =
        some false ∧
      (loadedRoom defaultStyle (Grid.make 2 1)
        "+-----+-----+\n|     =     |\n+-----+-----+" 1 0).map Room.door_w =
        some true ∧
      (loadedRoom defaultStyle (Grid.make 2 1)
        "+-----+-----+\n|     =     |\n+-----+-----+" 0 0).map Room.door_e =
        some false) := by
  refine ⟨?_, ?_, ?_, ?_, ?_, ?_, ?_⟩
  · intro line g g' h x y
    exact ⟨walkAux_lat_ok_preserves style ln false row Room.door_s
        (fun r => rfl) line.length line 0 0 none g g' h x y,
      walkAux_lat_ok_preserves style ln false row Room.door_e
        (fun r => rfl) line.length line 0 0 none g g' h x y,
      walkAux_lat_ok_preserves style ln false row Room.door_w
        (fun r => rfl) line.length line 0 0 none g g' h x y⟩
  · intro line g g' h x y
    exact ⟨walkAux_lat_ok_preserves style ln true row Room.door_n
        (fun r => rfl) line.length line 0 0 none g g' h x y,
      walkAux_lat_ok_preserves style ln true row Room.door_e
        (fun r => rfl) line.length line 0 0 none g g' h x y,
      walkAux_lat_ok_preserves style ln true row Room.door_w
        (fun r => rfl) line.length line 0 0 none g g' h x y⟩
  · intro sl line g g' h x y
    exact ⟨walkAux_cont_ok_preserves_ns style ln sl row Room.door_n
        (Or.inl rfl) line.length line 0 0 none g g' h x y,
      walkAux_cont_ok_preserves_ns style ln sl row Room.door_s
        (Or.inr rfl) line.length line 0 0 none g g' h x y⟩
  · decide
  · decide
  · decide
  · decide

/-- Witness for C3 (amended): a successful lateral-line walk that sets a
North door leaves the South flag of every room exactly as it was. -/
theorem interior_door_one_sided_witness :
    (((Grid.make 1 1).setRoom 0 0
      (fun r => r.add_door Direction.north)).room 0 0).map Room.door_s =
      ((Grid.make 1 1).room 0 0).map Room.door_s :=
  ((interior_door_one_sided defaultStyle 1 0).1
    (withSep '+' ["--H--".toList]) (Grid.make 1 1)
    ((Grid.make 1 1).setRoom 0 0 (fun r => r.add_door Direction.north))
    (by decide) 0 0).1

/-! ## Lemmas: the outer line loop -/

lemma loadHeader_append_skip (style : RoomStyle) (total : Nat) (g : Grid)
    (header rest : List (List Char)) (n : Nat)
    (h : ∀ l ∈ header, SkipLine l) :
    loadHeader style total g (header ++ rest) n =
      loadHeader style total g rest (n + header.length) := by
  induction header generalizing n with
  | nil => simp
  | cons a as ih =>
    have ha : (rstrip a).length = 0 ∨ (rstrip a).head? = some '#' :=
      h a (by simp)
    simp only [List.cons_append, List.append_eq, loadHeader]
    rw [if_pos ha, ih (n + 1) (fun l hl => h l (by simp [hl]))]
    congr 1
    simp only [List.length_cons]
    omega

/-- C7: In full-load mode, the expected line length is fixed once as
`width*(wall_segment_length+1)+1` (second conjunct, where it is derived
from the grid and checked against the first grid line), and every grid
line whose trimmed length differs from the expected length fails the
parse with an error carrying that line's 1-indexed line number (first
conjunct: any line reaching the length check, at any parser state).  The
last conjunct is a concrete whole-parse run failing on a short third
line. -/
theorem line_length_checked (style : RoomStyle) :
    (∀ (total line_len num_rows : Nat) (line : List Char)
      (rest : List (List Char)) (n grid_row : Nat) (sl wl : Bool) (g : Grid),
      (rstrip line).length ≠ line_len →
      loadGridLines style total line_len num_rows (line :: rest) n grid_row
          sl wl g = .error (.lineLen (n + 1) line_len) ∧
      (ParseError.lineLen (n + 1) line_len).lineNum = some (n + 1)) ∧
    (∀ (s : String) (g : Grid) (header rest : List (List Char))
      (first : List Char),
      splitlinesL s.toList = header ++ first :: rest →
      (∀ l ∈ header, SkipLine l) → ¬ SkipLine first →
      (rstrip first).length ≠ g.width * (style.wall_n.length + 1) + 1 →
      parse_map_load style g s = .error (.lineLen (header.length + 1)
        (g.width * (style.wall_n.length + 1) + 1))) ∧
    parse_map_load defaultStyle (Grid.make 1 2)
      "+-----+\n|     |\n+----+\n|     |\n+-----+" =
      .error (.lineLen 3 7) := by
  refine ⟨?_, ?_, by decide⟩
  · intro total line_len num_rows line rest n grid_row sl wl g hne
    constructor
    · simp only [loadGridLines]
      rw [if_pos hne]
    · rfl
  · intro s g header rest first hsplit hheader hfirst hne
    unfold parse_map_load
    rw [hsplit, loadHeader_append_skip style _ g header (first :: rest) 0
      hheader]
    simp only [loadHeader, Nat.zero_add]
    rw [if_neg (show ¬((rstrip first).length = 0 ∨
      (rstrip first).head? = some '#') from hfirst)]
    simp only [loadGridLines]
    rw [if_pos hne]

/-- Witness for C7: a first grid line of length 6 against a 1-wide grid
(expected length 7) is rejected with an error naming line 2. -/
theorem line_length_checked_witness :
    parse_map_load defaultStyle (Grid.make 1 1) "# c\n+----+" =
      .error (.lineLen 2 7) :=
  (line_length_checked defaultStyle).2.1 "# c\n+----+" (Grid.make 1 1)
    ["# c".toList] [] "+----+".toList (by decide) (by decide) (by decide)
    (by decide)

/-! ## Lemmas: grammar violations -/

lemma chunksPre_nil (sep : Char) : chunksPre sep [] = [] := rfl

lemma walkChunkStep_lat_badWall (style : RoomStyle) (ln : Nat) (sl : Bool)
    (row ch col : Nat) (c : Char) (tail : List Char) (g : Grid)
    (hbad : tail.take style.wall_n.length ≠ style.wall_n ∧
      tail.take style.wall_n.length ≠ style.door_n) :
    walkChunkStep style ln true sl row ch col c tail g =
      .error (.badHorizWall ln (ch + 1) (tail.take style.wall_n.length)) := by
  rw [walkChunkStep_lat_shape, if_pos hbad]

/-- A lateral line with a valid chunk prefix and then a non-corner
separator fails with `badCorner` at that separator's column. -/
lemma walkAux_lat_badCorner (style : RoomStyle) (ln : Nat) (sl : Bool)
    (row : Nat) (segs : List (List Char)) :
    ∀ (f ch col : Nat) (rPrev : Option (Nat × Nat)) (g : Grid)
      (badc : Char) (tail : List Char),
    (chunksPre style.corner segs ++ badc :: tail).length ≤ f →
    (∀ s ∈ segs, s.length = style.wall_n.length ∧
      (s = style.wall_n ∨ s = style.door_n)) →
    badc ≠ style.corner →
    walkAux style ln true sl row f
        (chunksPre style.corner segs ++ badc :: tail) ch col rPrev g =
      .error (.badCorner ln (ch + segs.length * (style.wall_n.length + 1))
        badc) := by
  induction segs with
  | nil =>
    intro f ch col rPrev g badc tail hf hsegs hbad
    rw [chunksPre_nil, List.nil_append] at hf ⊢
    obtain ⟨f2, rfl⟩ : ∃ f2, f = f2 + 1 := ⟨f - 1, by simp at hf; omega⟩
    simp only [walkAux]
    rw [if_pos (show True ∧ badc ≠ style.corner from ⟨trivial, hbad⟩)]
    simp

  | cons s ss ih =>
    intro f ch col rPrev g badc tail hf hsegs hbad
    obtain ⟨hlen, hwall⟩ := hsegs s (by simp)
    rw [chunksPre_cons, List.cons_append, List.append_assoc] at hf ⊢
    obtain ⟨f2, rfl⟩ : ∃ f2, f = f2 + 1 := ⟨f - 1, by simp at hf; omega⟩
    rw [walkAux_step_lat style ln sl row f2 ch col rPrev g s
      (chunksPre style.corner ss ++ badc :: tail) hlen (by simp) hwall]
    rw [ih f2 (ch + 1 + style.wall_n.length) (col + 1) _ _ badc tail
      (by simp only [List.length_cons, List.length_append] at hf ⊢; omega)
      (fun x hx => hsegs x (by simp [hx])) hbad]
    congr 2
    simp only [List.length_cons, Nat.succ_mul]
    omega

/-- A lateral line with a valid chunk prefix, a corner, and then a bad
wall segment fails with `badHorizWall` at the segment's start column. -/
lemma walkAux_lat_badWall (style : RoomStyle) (ln : Nat) (sl : Bool)
    (row : Nat) (segs : List (List Char)) :
    ∀ (f ch col : Nat) (rPrev : Option (Nat × Nat)) (g : Grid)
      (tail : List Char),
    (chunksPre style.corner segs ++ style.corner :: tail).length ≤ f →
    (∀ s ∈ segs, s.length = style.wall_n.length ∧
      (s = style.wall_n ∨ s = style.door_n)) →
    tail ≠ [] →
    (tail.take style.wall_n.length ≠ style.wall_n ∧
      tail.take style.wall_n.length ≠ style.door_n) →
    walkAux style ln true sl row f
        (chunksPre style.corner segs ++ style.corner :: tail) ch col rPrev g
      = .error (.badHorizWall ln
          (ch + segs.length * (style.wall_n.length + 1) + 1)
          (tail.take style.wall_n.length)) := by
  induction segs with
  | nil =>
    intro f ch col rPrev g tail hf hsegs htail hbad
    rw [chunksPre_nil, List.nil_append] at hf ⊢
    obtain ⟨f2, rfl⟩ : ∃ f2, f = f2 + 1 := ⟨f - 1, by simp at hf; omega⟩
    simp only [walkAux]
    rw [if_neg (show ¬(True ∧ style.corner ≠ style.corner) from by simp),
      if_neg (by simp), if_neg htail,
      walkChunkStep_lat_badWall style ln sl row ch col style.corner tail g
        hbad]
    simp
  | cons s ss ih =>
    intro f ch col rPrev g tail hf hsegs htail hbad
    obtain ⟨hlen, hwall⟩ := hsegs s (by simp)
    rw [chunksPre_cons, List.cons_append, List.append_assoc] at hf ⊢
    obtain ⟨f2, rfl⟩ : ∃ f2, f = f2 + 1 := ⟨f - 1, by simp at hf; omega⟩
    rw [walkAux_step_lat style ln sl row f2 ch col rPrev g s
      (chunksPre style.corner ss ++ style.corner :: tail) hlen (by simp)
      hwall]
    rw [ih f2 (ch + 1 + style.wall_n.length) (col + 1) _ _ tail
      (by simp only [List.length_cons, List.length_append] at hf ⊢; omega)
      (fun x hx => hsegs x (by simp [hx])) htail hbad]
    congr 2
    simp only [List.length_cons, Nat.succ_mul]
    omega

/-- A content line with a valid chunk prefix and then a separator that is
neither the plain vertical wall nor the west-door glyph fails with
`badVertWall` at that separator's column. -/
lemma walkAux_cont_badVert (style : RoomStyle) (ln : Nat) (sl : Bool)
    (row : Nat) (cells : List (Char × List Char)) :
    ∀ (f ch col : Nat) (rPrev : Option (Nat × Nat)) (g : Grid)
      (bads : Char) (tail : List Char),
    (cellsPre cells ++ bads :: tail).length ≤ f →
    (∀ p ∈ cells, (p.2 : List Char).length = style.wall_n.length ∧
      (p.1 = style.wall_w ∨ p.1 = style.door_w) ∧
      ∀ x ∈ pyStrip p.2, isRecognized x = true) →
    (∀ j, j < cells.length → ((g.room (col + j) row)).isSome = true) →
    ¬(bads = style.wall_w ∨ bads = style.door_w) →
    walkAux style ln false sl row f (cellsPre cells ++ bads :: tail)
        ch col rPrev g =
      .error (.badVertWall ln (ch + cells.length * (style.wall_n.length + 1))
        bads) := by
  induction cells with
  | nil =>
    intro f ch col rPrev g bads tail hf hcells hrooms hbad
    rw [show cellsPre [] = [] from rfl, List.nil_append] at hf ⊢
    obtain ⟨f2, rfl⟩ : ∃ f2, f = f2 + 1 := ⟨f - 1, by simp at hf; omega⟩
    simp only [walkAux]
    rw [if_neg (by simp),
      if_pos (show True ∧ ¬(bads = style.wall_w ∨ bads = style.door_w)
        from ⟨trivial, hbad⟩)]
    simp
  | cons p ps ih =>
    intro f ch col rPrev g bads tail hf hcells hrooms hbad
    obtain ⟨sep, cell⟩ := p
    obtain ⟨hlen, hsep, hrec⟩ := hcells (sep, cell) (by simp)
    have hroom0 : ((g.room col row)).isSome = true := by
      have := hrooms 0 (by simp)
      rwa [Nat.add_zero] at this
    obtain ⟨r, hr⟩ := Option.isSome_iff_exists.mp hroom0
    rw [cellsPre_cons, List.cons_append, List.append_assoc] at hf ⊢
    obtain ⟨f2, rfl⟩ : ∃ f2, f = f2 + 1 := ⟨f - 1, by simp at hf; omega⟩
    rw [walkAux_step_cont style ln sl row f2 ch col rPrev g sep cell
      (cellsPre ps ++ bads :: tail) r hlen (by simp) hsep hr hrec]
    rw [ih f2 (ch + 1 + style.wall_n.length) (col + 1) _ _ bads tail
      (by simp only [List.length_cons, List.length_append] at hf ⊢; omega)
      (fun x hx => hcells x (by simp [hx]))
      (fun j hj => by
        rw [contCellApply_room_isSome]
        have := hrooms (j + 1) (by simpa using hj)
        rwa [show col + (j + 1) = col + 1 + j by omega] at this) hbad]
    congr 2
    simp only [List.length_cons, Nat.succ_mul]
    omega

/-- C6: In full-load mode, every lateral-separator position on a lateral
line must hold the corner glyph and every lateral segment must be the
plain north-wall or north-door glyph sequence; every separator position on
a content line must hold one of the permitted vertical-separator
alternatives — plain wall, west-door or east-door glyph, the last two
coinciding in the style in play (`hde`); any mismatch fails the parse with
an error carrying both the line number and the column, and a line whose
positions all match walks with no error at all. -/
theorem grammar_positions (style : RoomStyle)
    (hde : style.door_e = style.door_w) :
    (∀ (ln : Nat) (sl : Bool) (row : Nat) (segs : List (List Char))
      (badc : Char) (tail : List Char) (g : Grid),
      (∀ s ∈ segs, s.length = style.wall_n.length ∧
        (s = style.wall_n ∨ s = style.door_n)) →
      badc ≠ style.corner →
      walkLine style ln true sl row
          (chunksPre style.corner segs ++ badc :: tail) g =
        .error (.badCorner ln (segs.length * (style.wall_n.length + 1))
          badc) ∧
      (ParseError.badCorner ln (segs.length * (style.wall_n.length + 1))
        badc).lineNum = some ln ∧
      (ParseError.badCorner ln (segs.length * (style.wall_n.length + 1))
        badc).colNum = some (segs.length * (style.wall_n.length + 1))) ∧
    (∀ (ln : Nat) (sl : Bool) (row : Nat) (segs : List (List Char))
      (tail : List Char) (g : Grid),
      (∀ s ∈ segs, s.length = style.wall_n.length ∧
        (s = style.wall_n ∨ s = style.door_n)) →
      tail ≠ [] →
      (tail.take style.wall_n.length ≠ style.wall_n ∧
        tail.take style.wall_n.length ≠ style.door_n) →
      walkLine style ln true sl row
          (chunksPre style.corner segs ++ style.corner :: tail) g =
        .error (.badHorizWall ln
          (segs.length * (style.wall_n.length + 1) + 1)
          (tail.take style.wall_n.length)) ∧
      (ParseError.badHorizWall ln
        (segs.length * (style.wall_n.length + 1) + 1)
        (tail.take style.wall_n.length)).lineNum = some ln ∧
      (ParseError.badHorizWall ln
        (segs.length * (style.wall_n.length + 1) + 1)
        (tail.take style.wall_n.length)).colNum =
          some (segs.length * (style.wall_n.length + 1) + 1)) ∧
    (∀ (ln : Nat) (sl : Bool) (row : Nat)
      (cells : List (Char × List Char)) (bads : Char) (tail : List Char)
      (g : Grid),
      (∀ p ∈ cells, (p.2 : List Char).length = style.wall_n.length ∧
        (p.1 = style.wall_w ∨ p.1 = style.door_w) ∧
        ∀ x ∈ pyStrip p.2, isRecognized x = true) →
      (∀ j, j < cells.length → ((g.room j row)).isSome = true) →
      bads ≠ style.wall_w → bads ≠ style.door_w → bads ≠ style.door_e →
      walkLine style ln false sl row (cellsPre cells ++ bads :: tail) g =
        .error (.badVertWall ln (cells.length * (style.wall_n.length + 1))
          bads) ∧
      (ParseError.badVertWall ln (cells.length * (style.wall_n.length + 1))
        bads).lineNum = some ln ∧
      (ParseError.badVertWall ln (cells.length * (style.wall_n.length + 1))
        bads).colNum = some (cells.length * (style.wall_n.length + 1))) ∧
    (∀ sep : Char, (sep = style.wall_w ∨ sep = style.door_w ∨
      sep = style.door_e) ↔ (sep = style.wall_w ∨ sep = style.door_w)) ∧
    (∀ (ln : Nat) (sl : Bool) (row : Nat) (segs : List (List Char))
      (g : Grid),
      (∀ s ∈ segs, s.length = style.wall_n.length ∧
        (s = style.wall_n ∨ s = style.door_n)) →
      walkLine style ln true sl row (withSep style.corner segs) g =
        .ok (latChunks style sl row segs 0 g)) ∧
    (∀ (ln : Nat) (sl : Bool) (row : Nat)
      (cells : List (Char × List Char)) (fin : Char) (g : Grid),
      (∀ p ∈ cells, (p.2 : List Char).length = style.wall_n.length ∧
        (p.1 = style.wall_w ∨ p.1 = style.door_w) ∧
        ∀ x ∈ pyStrip p.2, isRecognized x = true) →
      (fin = style.wall_w ∨ fin = style.door_w) →
      (∀ j, j < cells.length → ((g.room j row)).isSome = true) →
      walkLine style ln false sl row (lineOfCells cells fin) g =
        .ok (eastDoorAt style fin
          (if cells.isEmpty then none else some (cells.length - 1, row))
          (contChunks style row cells 0 g))) := by
  refine ⟨?_, ?_, ?_, ?_, ?_, ?_⟩
  · intro ln sl row segs badc tail g hsegs hbad
    refine ⟨?_, rfl, rfl⟩
    unfold walkLine
    have := walkAux_lat_badCorner style ln sl row segs
      (chunksPre style.corner segs ++ badc :: tail).length 0 0 none g badc
      tail le_rfl hsegs hbad
    rwa [Nat.zero_add] at this
  · intro ln sl row segs tail g hsegs htail hbad
    refine ⟨?_, rfl, rfl⟩
    unfold walkLine
    have := walkAux_lat_badWall style ln sl row segs
      (chunksPre style.corner segs ++ style.corner :: tail).length 0 0 none
      g tail le_rfl hsegs htail hbad
    rwa [Nat.zero_add] at this
  · intro ln sl row cells bads tail g hcells hrooms hb1 hb2 hb3
    refine ⟨?_, rfl, rfl⟩
    unfold walkLine
    have := walkAux_cont_badVert style ln sl row cells
      (cellsPre cells ++ bads :: tail).length 0 0 none g bads tail le_rfl
      hcells
      (fun j hj => by rw [Nat.zero_add]; exact hrooms j hj)
      (by tauto)
    rwa [Nat.zero_add] at this
  · intro sep
    constructor
    · intro h
      rcases h with h | h | h
      · exact Or.inl h
      · exact Or.inr h
      · exact Or.inr (h.trans hde)
    · intro h
      tauto
  · intro ln sl row segs g hsegs
    exact walkAux_lat_ok style ln sl row segs
      (withSep style.corner segs).length 0 0 none g le_rfl hsegs
  · intro ln sl row cells fin g hcells hfin hrooms
    unfold walkLine
    have := walkAux_cont_ok style ln sl row fin hfin cells
      (lineOfCells cells fin).length 0 0 none g le_rfl hcells
      (fun j hj => by rw [Nat.zero_add]; exact hrooms j hj)
    rw [this]
    by_cases hc : cells.isEmpty
    · rw [if_pos hc, if_pos hc]
    · rw [if_neg hc, if_neg hc, Nat.zero_add]

/-- Witness for C6: over a 1x1 grid, the separator `X` in place of the
leading corner of a lateral line is rejected at line 1, column 0, and the
lateral line `+--H--+` walks without error. -/
theorem grammar_positions_witness :
    walkLine defaultStyle 1 true false 0 ['X', '-'] (Grid.make 1 1) =
      .error (.badCorner 1 0 'X') ∧
    walkLine defaultStyle 1 true false 0 (withSep '+' ["--H--".toList])
      (Grid.make 1 1) =
      .ok (latChunks defaultStyle false 0 ["--H--".toList] 0 (Grid.make 1 1)) :=
  ⟨((grammar_positions defaultStyle rfl).1 1 false 0 [] 'X' ['-']
      (Grid.make 1 1) (by simp) (by decide)).1,
   (grammar_positions defaultStyle rfl).2.2.2.2.1 1 false 0
      ["--H--".toList] (Grid.make 1 1) (by decide)⟩

end DungeonAdventure
